import Mathlib

/-!
Shallow embedding of the SLCAN serial-CAN driver (`can/interfaces/slcan.py`):
the line framer `_read`, the frame codec `send` / `_recv_internal`, the
CAN-FD DLC codec `decode_hex_dlc` / `encode_dlc_hex`, the session commands
(`open`, `close`, `set_bitrate`, `set_bitrate_reg`, `_set_bit_timing_fd`,
`shutdown`, `get_version`) and the command trace of `__init__`.

Wire strings are `List Char`, raw serial bytes are `List Nat` (each < 256).
Python exceptions are modelled by `Except PyErr`.
-/

namespace Slcan

/-- Kinds of exceptions the embedded code can surface: `valueError` for
Python `ValueError` raised by `int(...)` / `bytearray.fromhex`, `indexError`
for out-of-range string indexing, and `opError` for `CanOperationError`
(transport failures and anything wrapped by `error_check`). -/
inductive PyErr
  | valueError
  | indexError
  | opError
  deriving Repr, DecidableEq

instance exceptDecEq {ε α : Type} [DecidableEq ε] [DecidableEq α] :
    DecidableEq (Except ε α) := fun x y =>
  match x, y with
  | .error e, .error f =>
    if h : e = f then .isTrue (h ▸ rfl) else .isFalse (fun hh => h (Except.error.inj hh))
  | .error _, .ok _ => .isFalse Except.noConfusion
  | .ok _, .error _ => .isFalse Except.noConfusion
  | .ok a, .ok b =>
    if h : a = b then .isTrue (h ▸ rfl) else .isFalse (fun hh => h (Except.ok.inj hh))

/-! ### Character and numeral helpers (Python `format`, `int`, `bytes.hex`) -/

/-- Value of a hexadecimal digit character, case-insensitive (`int(c, 16)`
accepts both cases); `none` for a non-hex-digit character. -/
def hexDigitVal? (c : Char) : Option Nat :=
  if '0' ≤ c ∧ c ≤ '9' then some (c.toNat - 48)
  else if 'a' ≤ c ∧ c ≤ 'f' then some (c.toNat - 87)
  else if 'A' ≤ c ∧ c ≤ 'F' then some (c.toNat - 55)
  else none

/-- Whether a character is a hexadecimal digit. -/
def isHexDigitB (c : Char) : Bool := (hexDigitVal? c).isSome

/-- Hex digit value with default 0 (only used on checked hex digits). -/
def hexVal (c : Char) : Nat := (hexDigitVal? c).getD 0

/-- Python `int(s, 16)` on the fragment exercised by the wire protocol:
a non-empty all-hex-digit string parses to its base-16 value, anything else
raises `ValueError` (modelled as `none`).  (Python additionally strips
whitespace and accepts signs, `0x` and underscores; a conforming SLCAN
adapter never produces those, and none of the inputs used below do.) -/
def pyIntHex? (s : List Char) : Option Nat :=
  if s ≠ [] ∧ s.all isHexDigitB then
    some (s.foldl (fun a c => 16 * a + hexVal c) 0)
  else none

/-- Value of a decimal digit character; `none` for anything else. -/
def decDigitVal? (c : Char) : Option Nat :=
  if '0' ≤ c ∧ c ≤ '9' then some (c.toNat - 48) else none

/-- Python `int(s)` (base 10) on the fragment exercised here: non-empty
all-decimal-digit strings; everything else raises `ValueError` (`none`). -/
def pyIntDec? (s : List Char) : Option Nat :=
  if s ≠ [] ∧ s.all (fun c => (decDigitVal? c).isSome) then
    some (s.foldl (fun a c => 10 * a + (decDigitVal? c).getD 0) 0)
  else none

/-- Uppercase hexadecimal digit character for `n < 16`, as produced by
Python `format(n, 'X')` / `bytes.hex().upper()`. -/
def hexUpperDigit (n : Nat) : Char :=
  if n < 10 then Char.ofNat (48 + n) else Char.ofNat (55 + n)

/-- Decimal digit character for `n < 10`. -/
def decDigitChar (n : Nat) : Char := Char.ofNat (48 + n)

/-- Base-16 digits of `n`, least significant first, by repeated division;
the first argument is structural-recursion fuel (any fuel `≥ n` is exact). -/
def hexRevAux : Nat → Nat → List Nat
  | 0, _ => []
  | _ + 1, 0 => []
  | f + 1, n + 1 => (n + 1) % 16 :: hexRevAux f ((n + 1) / 16)

/-- Base-10 digits of `n`, least significant first (fuelled as `hexRevAux`). -/
def decRevAux : Nat → Nat → List Nat
  | 0, _ => []
  | _ + 1, 0 => []
  | f + 1, n + 1 => (n + 1) % 10 :: decRevAux f ((n + 1) / 10)

/-- Python `format(n, 'X')`: minimal-width uppercase hexadecimal numeral. -/
def natToHexU (n : Nat) : List Char :=
  if n = 0 then ['0'] else ((hexRevAux n n).reverse.map hexUpperDigit)

/-- Python `format(n, 'd')` (also the f-string `{n:d}`): decimal numeral. -/
def natToDec (n : Nat) : List Char :=
  if n = 0 then ['0'] else ((decRevAux n n).reverse.map decDigitChar)

/-- Python `format(n, f'0{w}X')`: uppercase hex, zero-padded to width `w`
(longer numerals are kept whole). -/
def hexPad (w n : Nat) : List Char :=
  List.replicate (w - (natToHexU n).length) '0' ++ natToHexU n

/-- Python `format(n, f'0{w}d')`: decimal, zero-padded to width `w`. -/
def decPad (w n : Nat) : List Char :=
  List.replicate (w - (natToDec n).length) '0' ++ natToDec n

/-- Two uppercase hex characters of one byte, as in `bytes.hex().upper()`. -/
def byteHexU (b : Nat) : List Char := [hexUpperDigit (b / 16), hexUpperDigit (b % 16)]

/-- Python `data.hex().upper()`: every byte as two uppercase hex characters. -/
def bytesHexU (bs : List Nat) : List Char := (bs.map byteHexU).flatten

/-- Python `bytearray.fromhex(s)`: pairs of hex digits to bytes; an odd-length
string or a non-hex-digit character raises `ValueError` (`none`).  (Python
additionally skips blank characters between pairs; the protocol never
produces them.) -/
def fromhex? : List Char → Option (List Nat)
  | [] => some []
  | c1 :: c2 :: t =>
    match hexDigitVal? c1, hexDigitVal? c2, fromhex? t with
    | some h, some l, some bs => some ((16 * h + l) :: bs)
    | _, _, _ => none
  | [_] => none

/-- Python slice `s[a:b]` for `0 ≤ a ≤ b` (out-of-range bounds clamp). -/
def pySlice (s : List Char) (a b : Nat) : List Char := (s.drop a).take (b - a)

/-! ### Strict UTF-8 decoding (Python `bytes.decode()`)

`_read` decodes the sliced byte prefix with `bytes.decode()` (strict UTF-8)
before returning it; a failure (e.g. a `0xFF` byte) escapes through the
surrounding `error_check` as an operation error.  The decoder below follows
the UTF-8 table (continuation ranges per lead byte, no overlongs, no
surrogates); the first argument is structural-recursion fuel, always called
with the list length. -/

/-- One step bound of the fuelled strict UTF-8 decoder. -/
def decodeUtf8Aux : Nat → List Nat → Option (List Char)
  | 0, [] => some []
  | 0, _ :: _ => none
  | _ + 1, [] => some []
  | f + 1, b1 :: rest =>
    if b1 ≤ 0x7F then
      (decodeUtf8Aux f rest).map (fun cs => Char.ofNat b1 :: cs)
    else if 0xC2 ≤ b1 ∧ b1 ≤ 0xDF then
      match rest with
      | b2 :: rest2 =>
        if 0x80 ≤ b2 ∧ b2 ≤ 0xBF then
          (decodeUtf8Aux f rest2).map
            (fun cs => Char.ofNat ((b1 - 0xC0) * 0x40 + (b2 - 0x80)) :: cs)
        else none
      | [] => none
    else if 0xE0 ≤ b1 ∧ b1 ≤ 0xEF then
      match rest with
      | b2 :: b3 :: rest3 =>
        if (if b1 = 0xE0 then 0xA0 ≤ b2 ∧ b2 ≤ 0xBF
            else if b1 = 0xED then 0x80 ≤ b2 ∧ b2 ≤ 0x9F
            else 0x80 ≤ b2 ∧ b2 ≤ 0xBF) ∧ 0x80 ≤ b3 ∧ b3 ≤ 0xBF then
          (decodeUtf8Aux f rest3).map
            (fun cs => Char.ofNat ((b1 - 0xE0) * 0x1000 + (b2 - 0x80) * 0x40 + (b3 - 0x80)) :: cs)
        else none
      | _ => none
    else if 0xF0 ≤ b1 ∧ b1 ≤ 0xF4 then
      match rest with
      | b2 :: b3 :: b4 :: rest4 =>
        if (if b1 = 0xF0 then 0x90 ≤ b2 ∧ b2 ≤ 0xBF
            else if b1 = 0xF4 then 0x80 ≤ b2 ∧ b2 ≤ 0x8F
            else 0x80 ≤ b2 ∧ b2 ≤ 0xBF) ∧ 0x80 ≤ b3 ∧ b3 ≤ 0xBF ∧ 0x80 ≤ b4 ∧ b4 ≤ 0xBF then
          (decodeUtf8Aux f rest4).map
            (fun cs => Char.ofNat
              ((b1 - 0xF0) * 0x40000 + (b2 - 0x80) * 0x1000 + (b3 - 0x80) * 0x40 + (b4 - 0x80)) :: cs)
        else none
      | _ => none
    else none

/-- Python `bytes(l).decode()`: strict UTF-8, `none` models `UnicodeDecodeError`. -/
def decodeUtf8? (l : List Nat) : Option (List Char) := decodeUtf8Aux l.length l

/-! ### The line framer (`slcanBus._read`) -/

/-- `bytearray.find(pattern)` for a one-byte pattern: index of the first
occurrence (`-1`, modelled as `none`, when absent). -/
def findIdxO (p : Nat → Bool) : List Nat → Option Nat
  | [] => none
  | b :: t => if p b then some 0 else (findIdxO p t).map (· + 1)

/-- The `min(idx for idx in [error_index, ok_index] if idx != -1)` step of
`_read`: the smaller of the two indices, ignoring absent ones. -/
def minIdx : Option Nat → Option Nat → Option Nat
  | none, none => none
  | some i, none => some i
  | none, some j => some j
  | some i, some j => some (min i j)

/-- The terminator bytes: `_OK = b"\r"` (13) and `_ERROR = b"\a"` (7). -/
def isTerm (b : Nat) : Bool := b == 13 || b == 7

/-- One pass of the buffer-consuming branch of `slcanBus._read`: find the
first `\r` and the first `\a`, take the earlier of those present, decode the
prefix through it and keep the remainder buffered.  `.ok none` corresponds
to the timeout path (no terminator buffered and none arriving); the polling
loop and the monotonic deadline are not modelled. -/
def _read (buf : List Nat) : Except PyErr (Option (List Char × List Nat)) :=
  let ok_index := findIdxO (· == 13) buf
  let error_index := findIdxO (· == 7) buf
  match minIdx ok_index error_index with
  | none => .ok none
  | some k =>
    match decodeUtf8? (buf.take (k + 1)) with
    | some str => .ok (some (str, buf.drop (k + 1)))
    | none => .error .opError

/-- Repeatedly call `_read` (with unbounded timeout) until the buffer holds
no terminator or a decode error stops the iteration; returns the responses
in order and the final buffer.  Fuelled by the buffer length (each
successful step consumes at least one byte). -/
def readAllFuel : Nat → List Nat → List (List Char) × List Nat
  | 0, buf => ([], buf)
  | f + 1, buf =>
    match _read buf with
    | .ok (some (s, rest)) =>
      let (ss, r) := readAllFuel f rest
      (s :: ss, r)
    | _ => ([], buf)

/-- All successive responses the framer extracts from a buffer content. -/
def readAll (buf : List Nat) : List (List Char) × List Nat := readAllFuel buf.length buf

/-! ### The CAN-FD DLC codec (`decode_hex_dlc` / `encode_dlc_hex`) -/

/-- Python `str.isdigit()` for one character, on the modelled fragment of
Unicode: the ASCII digits; the superscripts `¹ ² ³` (digit-valued but not
decimal, so `isdigit` accepts them while `int` rejects them); and the
Arabic-Indic, extended Arabic-Indic, Devanagari and fullwidth decimal-digit
blocks.  Exact on ASCII and on these blocks; characters of other scripts do
not occur in any statement below. -/
def pyIsDigit (c : Char) : Bool :=
  decide (('0' ≤ c ∧ c ≤ '9') ∨ c = '¹' ∨ c = '²' ∨ c = '³' ∨
    (0x660 ≤ c.toNat ∧ c.toNat ≤ 0x669) ∨ (0x6F0 ≤ c.toNat ∧ c.toNat ≤ 0x6F9) ∨
    (0x966 ≤ c.toNat ∧ c.toNat ≤ 0x96F) ∨ (0xFF10 ≤ c.toNat ∧ c.toNat ≤ 0xFF19))

/-- Python `int(c)` for a one-character string: the decimal value of a
Unicode decimal digit (category Nd; same modelled blocks as `pyIsDigit`),
`none` (ValueError) for everything else — in particular for the
superscripts, which `isdigit` accepts but `int` rejects. -/
def pyIntDigit? (c : Char) : Option Nat :=
  if '0' ≤ c ∧ c ≤ '9' then some (c.toNat - 48)
  else if 0x660 ≤ c.toNat ∧ c.toNat ≤ 0x669 then some (c.toNat - 0x660)
  else if 0x6F0 ≤ c.toNat ∧ c.toNat ≤ 0x6F9 then some (c.toNat - 0x6F0)
  else if 0x966 ≤ c.toNat ∧ c.toNat ≤ 0x96F then some (c.toNat - 0x966)
  else if 0xFF10 ≤ c.toNat ∧ c.toNat ≤ 0xFF19 then some (c.toNat - 0xFF10)
  else none

/-- `slcanBus.decode_hex_dlc`: one DLC nibble character to a byte count.
The source uppercases its (one-character) argument, tests `str.isdigit`,
converts with `int` — which raises `ValueError` for digit-valued characters
outside category Nd such as `'²'`, and returns the numeric value of
non-ASCII decimal digits such as `'٣'` — maps values `0..8` to themselves
and `9` to 12, letters `A`..`E` to 16/20/24/32/48, and falls through to 64
for everything else.  `str.upper` is `Char.toUpper` (exact on ASCII and on
characters with no uppercase mapping, which covers every character used
below); `isdigit` / `int` are modelled by `pyIsDigit` / `pyIntDigit?`. -/
def decode_hex_dlc (c : Char) : Except PyErr Nat :=
  let u := c.toUpper
  if pyIsDigit u then
    match pyIntDigit? u with
    | none => .error .valueError
    | some num =>
      if num ≤ 8 then .ok num
      else if num = 9 then .ok 12
      else .ok 64
  else if u = 'A' then .ok 16
  else if u = 'B' then .ok 20
  else if u = 'C' then .ok 24
  else if u = 'D' then .ok 32
  else if u = 'E' then .ok 48
  else .ok 64

/-- `slcanBus.encode_dlc_hex`: byte count to DLC nibble character; lengths
`0..8` via `format(n, 'X')`, the canonical FD lengths to `'9'`..`'E'`, and
`'F'` for everything else. -/
def encode_dlc_hex (n : Nat) : Char :=
  if n ≤ 8 then hexUpperDigit n
  else if n = 12 then '9'
  else if n = 16 then 'A'
  else if n = 20 then 'B'
  else if n = 24 then 'C'
  else if n = 32 then 'D'
  else if n = 48 then 'E'
  else 'F'

/-- The canonical CAN-FD payload byte counts. -/
def canonicalFd : List Nat := [0, 1, 2, 3, 4, 5, 6, 7, 8, 12, 16, 20, 24, 32, 48, 64]

/-- The characters recognized by `decode_hex_dlc` as DLC nibbles. -/
def nibbleChars : List Char := "0123456789abcdefABCDEF".toList

/-- The sixteen uppercase nibble characters of the DLC table. -/
def nibbleCharsU : List Char := "0123456789ABCDEF".toList

/-! ### The in-memory CAN message

Modelled from the spec: `can.Message` (not under `src/`) per §3 of the spec —
the seven fields the slcan codec reads and writes; `timestamp` and `channel`
are excluded (the round-trip claim excludes them).  Constructing a message
with `data=None`, as `_recv_internal` does for remote frames, yields an empty
payload ("data: byte sequence …, empty for remote frames"). -/

structure Msg where
  arbitration_id : Nat
  is_extended_id : Bool
  is_remote_frame : Bool
  is_fd : Bool
  bitrate_switch : Bool
  dlc : Nat
  data : List Nat
  deriving Repr, DecidableEq

/-! ### The frame encoder (`slcanBus.send`) -/

/-- The command string built by `slcanBus.send` (before `_write` appends the
`\r` terminator).  Mirrors the source: FD frames dispatch on
`bitrate_switch` / `is_extended_id` to `B`/`b`/`D`/`d` with a DLC nibble and
the payload in uppercase hex, padded with `'00'` pairs when the nibble is
`'F'` and `msg.dlc < 64`; classical frames dispatch on `is_remote_frame` /
`is_extended_id` to `R`/`r`/`T`/`t` with a decimal DLC digit and, for data
frames, the payload in uppercase hex.  (The `write_timeout` update on the
transport is configuration only and is not modelled.) -/
def sendStr (msg : Msg) : List Char :=
  if msg.is_fd then
    let dlc_hex := encode_dlc_hex msg.dlc
    let head :=
      if msg.bitrate_switch then
        if msg.is_extended_id then 'B' :: hexPad 8 msg.arbitration_id
        else 'b' :: hexPad 3 msg.arbitration_id
      else
        if msg.is_extended_id then 'D' :: hexPad 8 msg.arbitration_id
        else 'd' :: hexPad 3 msg.arbitration_id
    let s := head ++ [dlc_hex] ++ bytesHexU msg.data
    if dlc_hex = 'F' ∧ msg.dlc < 64 then s ++ List.replicate (2 * (64 - msg.dlc)) '0'
    else s
  else
    if msg.is_remote_frame then
      (if msg.is_extended_id then 'R' :: hexPad 8 msg.arbitration_id
       else 'r' :: hexPad 3 msg.arbitration_id) ++ natToDec msg.dlc
    else
      ((if msg.is_extended_id then 'T' :: hexPad 8 msg.arbitration_id
        else 't' :: hexPad 3 msg.arbitration_id) ++ natToDec msg.dlc) ++ bytesHexU msg.data

/-! ### The frame decoder (`slcanBus._recv_internal`) -/

/-- `int(string[a:b], 16)`: hex field of a response; raises `ValueError` on
a malformed field. -/
def hexField (s : List Char) (a b : Nat) : Except PyErr Nat :=
  match pyIntHex? (pySlice s a b) with
  | some n => .ok n
  | none => .error .valueError

/-- `int(string[i])`: single-character decimal field; raises `IndexError`
past the end and `ValueError` on a non-digit. -/
def digitAt (s : List Char) (i : Nat) : Except PyErr Nat :=
  match s.get? i with
  | none => .error .indexError
  | some c =>
    match decDigitVal? c with
    | some d => .ok d
    | none => .error .valueError

/-- `string[i]`: character indexing; raises `IndexError` past the end. -/
def charAt (s : List Char) (i : Nat) : Except PyErr Char :=
  match s.get? i with
  | none => .error .indexError
  | some c => .ok c

/-- `bytearray.fromhex(string[start : start + dlc*2])`: the payload field. -/
def dataField (s : List Char) (start dlc : Nat) : Except PyErr (List Nat) :=
  match fromhex? (pySlice s start (start + dlc * 2)) with
  | some bs => .ok bs
  | none => .error .valueError

/-- The response-parsing part of `slcanBus._recv_internal`: dispatch on the
first character of the response string (which still carries its terminator).
`.ok none` is the `(None, False)` no-message result; uncaught `ValueError` /
`IndexError` from `int` / `fromhex` / indexing propagate as `.error`.
Remote frames construct `Message(..., data=None)`, i.e. an empty payload. -/
def parseFrame (s : List Char) : Except PyErr (Option Msg) :=
  match s with
  | [] => .ok none
  | c :: _ =>
    if c = 'T' ∨ c = 'x' then do
      let canId ← hexField s 1 9
      let dlc ← digitAt s 9
      let data ← dataField s 10 dlc
      .ok (some ⟨canId, true, false, false, false, dlc, data⟩)
    else if c = 't' then do
      let canId ← hexField s 1 4
      let dlc ← digitAt s 4
      let data ← dataField s 5 dlc
      .ok (some ⟨canId, false, false, false, false, dlc, data⟩)
    else if c = 'r' then do
      let canId ← hexField s 1 4
      let dlc ← digitAt s 4
      .ok (some ⟨canId, false, true, false, false, dlc, []⟩)
    else if c = 'R' then do
      let canId ← hexField s 1 9
      let dlc ← digitAt s 9
      .ok (some ⟨canId, true, true, false, false, dlc, []⟩)
    else if c = 'd' then do
      let canId ← hexField s 1 4
      let nib ← charAt s 4
      let dlc ← decode_hex_dlc nib
      let data ← dataField s 5 dlc
      .ok (some ⟨canId, false, false, true, false, dlc, data⟩)
    else if c = 'D' then do
      let canId ← hexField s 1 9
      let nib ← charAt s 9
      let dlc ← decode_hex_dlc nib
      let data ← dataField s 10 dlc
      .ok (some ⟨canId, true, false, true, false, dlc, data⟩)
    else if c = 'b' then do
      let canId ← hexField s 1 4
      let nib ← charAt s 4
      let dlc ← decode_hex_dlc nib
      let data ← dataField s 5 dlc
      .ok (some ⟨canId, false, false, true, true, dlc, data⟩)
    else if c = 'B' then do
      let canId ← hexField s 1 9
      let nib ← charAt s 9
      let dlc ← decode_hex_dlc nib
      let data ← dataField s 10 dlc
      .ok (some ⟨canId, true, false, true, true, dlc, data⟩)
    else .ok none

/-- `slcanBus._recv_internal` on a given buffer content: read one response
from the buffer (no response ⇒ `(None, False)`, i.e. `.ok none`) and parse
it.  The `filtered` component of the pair is always `False` and is dropped. -/
def _recv_internal (buf : List Nat) : Except PyErr (Option Msg) :=
  match _read buf with
  | .error e => .error e
  | .ok none => .ok none
  | .ok (some (s, _)) => parseFrame s

/-- Well-formedness of a message, as assumed by the frame round-trip claim,
completed with the field invariants of the spec's data model (§3):
payload bytes are bytes; the identifier fits its 11-bit (standard) or
29-bit (extended) width; remote frames are classical, carry no payload and
a single-digit DLC; FD frames carry a canonical DLC equal to the payload
length; `bitrate_switch` only on FD frames; classical data frames have
`dlc = len(data) ≤ 8`. -/
def wellFormed (m : Msg) : Prop :=
  (∀ b ∈ m.data, b < 256) ∧
  (if m.is_extended_id then m.arbitration_id < 2 ^ 29 else m.arbitration_id < 2 ^ 11) ∧
  (m.is_remote_frame = true → m.is_fd = false ∧ m.data = [] ∧ m.dlc ≤ 8) ∧
  (m.is_fd = true → m.dlc ∈ canonicalFd ∧ m.dlc = m.data.length) ∧
  (m.is_fd = false → m.bitrate_switch = false) ∧
  (m.is_fd = false → m.is_remote_frame = false → m.dlc ≤ 8 ∧ m.dlc = m.data.length)

instance (m : Msg) : Decidable (wellFormed m) := by
  unfold wellFormed; infer_instance

/-! ### The transport and the session commands

Modelled from the spec: the byte transport (the serial port, an external
collaborator, §6) is a full-duplex stream; the model records the `write`d
byte strings in order and whether the port is open.  A `write`+`flush` on a
closed port fails, which `error_check` surfaces as an operation error (§7);
closing an already-closed port is a no-op.  Reading is passed in as data
where needed. -/

structure Transport where
  isOpen : Bool
  written : List (List Char)
  deriving Repr, DecidableEq

/-- Transport `write` followed by `flush`. -/
def transportWrite (t : Transport) (s : List Char) : Except PyErr Transport :=
  if t.isOpen then .ok { t with written := t.written ++ [s] } else .error .opError

/-- `serialPortOrig.close()`. -/
def transportClose (t : Transport) : Transport := { t with isOpen := false }

/-- `slcanBus._write`: send the command plus the `\r` line terminator and
flush; failures become operation errors via `error_check`. -/
def _write (t : Transport) (s : List Char) : Except PyErr Transport :=
  transportWrite t (s ++ ['\r'])

/-- `slcanBus.open` (named `openChannel` because `open` is reserved in
Lean): `L` in listen-only mode, else `O`. -/
def openChannel (listen_only : Bool) (t : Transport) : Except PyErr Transport :=
  if listen_only then _write t ['L'] else _write t ['O']

/-- `slcanBus.close`: emit `C`. -/
def close (t : Transport) : Except PyErr Transport := _write t ['C']

/-- `slcanBus.send`: encode the message and `_write` it (no session-state
check of any kind precedes the write). -/
def send (msg : Msg) (t : Transport) : Except PyErr Transport := _write t (sendStr msg)

/-- Modelled from the spec: `BusABC.shutdown` (the base class, not under
`src/`) performs bookkeeping only — it stops periodic tasks and marks the
bus shut down; it does no transport I/O (§1 treats the higher-level bus
abstraction as external). -/
def baseShutdown (t : Transport) : Transport := t

/-- `slcanBus.shutdown`: base-class shutdown, then `close()` (a `_write` of
`C`), then close the serial port. -/
def shutdown (t : Transport) : Except PyErr Transport :=
  match close (baseShutdown t) with
  | .error e => .error e
  | .ok t2 => .ok (transportClose t2)

/-- The `_BITRATES` table: preset bitrate to configuration command. -/
def bitrateCode? (b : Nat) : Option (List Char) :=
  if b = 10000 then some ['S', '0']
  else if b = 20000 then some ['S', '1']
  else if b = 50000 then some ['S', '2']
  else if b = 100000 then some ['S', '3']
  else if b = 125000 then some ['S', '4']
  else if b = 250000 then some ['S', '5']
  else if b = 500000 then some ['S', '6']
  else if b = 750000 then some ['S', '7']
  else if b = 1000000 then some ['S', '8']
  else if b = 83300 then some ['S', '9']
  else none

/-- `slcanBus.set_bitrate`: reject a bitrate outside `_BITRATES`
(`ValueError`), else close, write the `S<n>` code, and re-open. -/
def set_bitrate (listen_only : Bool) (bitrate : Nat) (t : Transport) : Except PyErr Transport :=
  match bitrateCode? bitrate with
  | none => .error .valueError
  | some code =>
    match close t with
    | .error e => .error e
    | .ok t1 =>
      match _write t1 code with
      | .error e => .error e
      | .ok t2 => openChannel listen_only t2

/-- `slcanBus.set_bitrate_reg`: close, write `s` plus the BTR string, and
re-open. -/
def set_bitrate_reg (listen_only : Bool) (btr : List Char) (t : Transport) :
    Except PyErr Transport :=
  match close t with
  | .error e => .error e
  | .ok t1 =>
    match _write t1 ('s' :: btr) with
    | .error e => .error e
    | .ok t2 => openChannel listen_only t2

/-- `slcanBus._set_bit_timing_fd`: close, write the nominal-phase `P` and
data-phase `p` quadruples (each field zero-padded 4-digit decimal), and
re-open. -/
def _set_bit_timing_fd (listen_only : Bool)
    (nom_sjw nom_tseg1 nom_tseg2 nom_brp data_sjw data_tseg1 data_tseg2 data_brp : Nat)
    (t : Transport) : Except PyErr Transport :=
  let nomStr := 'P' :: (decPad 4 nom_sjw ++ decPad 4 nom_tseg1 ++ decPad 4 nom_tseg2 ++ decPad 4 nom_brp)
  let dataStr := 'p' :: (decPad 4 data_sjw ++ decPad 4 data_tseg1 ++ decPad 4 data_tseg2 ++ decPad 4 data_brp)
  match close t with
  | .error e => .error e
  | .ok t1 =>
    match _write t1 nomStr with
    | .error e => .error e
    | .ok t2 =>
      match _write t2 dataStr with
      | .error e => .error e
      | .ok t3 => openChannel listen_only t3

/-- The timing argument of the constructor: a classical `BitTiming` (BTR
register pair) or a `BitTimingFd` (nominal and data phase quadruples).  The
`f_clock` check (`check_or_adjust_timing_clock`, outside `src/`) passes for
the contract-required clocks and is not modelled. -/
inductive TimingParam
  | classical (btr0 btr1 : Nat)
  | fd (nom_sjw nom_tseg1 nom_tseg2 nom_brp data_sjw data_tseg1 data_tseg2 data_brp : Nat)
  deriving Repr, DecidableEq

/-- The configuration part of `slcanBus.__init__` (after the serial port is
opened and the settling sleep): dispatch on the timing argument, else on
`bitrate` / deprecated `btr` (mutually exclusive), then `self.open()`. -/
def initConfig (listen_only : Bool) (timing : Option TimingParam) (bitrate : Option Nat)
    (btr : Option (List Char)) (t : Transport) : Except PyErr Transport :=
  let step1 : Except PyErr Transport :=
    match timing with
    | some (.classical btr0 btr1) => set_bitrate_reg listen_only (hexPad 2 btr0 ++ hexPad 2 btr1) t
    | some (.fd a b c d e f g h) => _set_bit_timing_fd listen_only a b c d e f g h t
    | none =>
      if bitrate.isSome ∧ btr.isSome then .error .valueError
      else
        match bitrate with
        | some b =>
          match set_bitrate listen_only b t with
          | .error e => .error e
          | .ok t1 =>
            match btr with
            | some s => set_bitrate_reg listen_only s t1
            | none => .ok t1
        | none =>
          match btr with
          | some s => set_bitrate_reg listen_only s t
          | none => .ok t
  match step1 with
  | .error e => .error e
  | .ok t1 => openChannel listen_only t1

/-- `slcanBus.get_version`: `_write` the command `V`, then read one response
(passed in as `resp`; `none` is a read timeout).  A six-character response
starting with `V` has its two two-digit decimal fields extracted with
`int`; any other response yields `(None, None)`. -/
def get_version (t : Transport) (resp : Option (List Char)) :
    Except PyErr (Transport × Option Nat × Option Nat) :=
  match _write t ['V'] with
  | .error e => .error e
  | .ok t1 =>
    match resp with
    | none => .ok (t1, none, none)
    | some s =>
      if s = [] then .ok (t1, none, none)
      else if s.get? 0 = some 'V' ∧ s.length = 6 then
        match pyIntDec? (pySlice s 1 3), pyIntDec? (pySlice s 3 5) with
        | some hw, some sw => .ok (t1, some hw, some sw)
        | _, _ => .error .valueError
      else .ok (t1, none, none)

/-! ### ASCII facts about `Char.ofNat` / `Char.toNat` -/

theorem charToNat_ofNat {n : Nat} (h : n < 0xd800) : (Char.ofNat n).toNat = n := by
  have hv : n.isValidChar := Or.inl h
  simp [Char.ofNat, hv, Char.ofNatAux, Char.toNat, UInt32.toNat, BitVec.toNat_ofNatLt]

theorem charOfNat_toNat_ascii (c : Char) (h : c.toNat < 128) : Char.ofNat c.toNat = c := by
  have h1 : (Char.ofNat c.toNat).toNat = c.toNat := charToNat_ofNat (by omega)
  have h2 : (Char.ofNat c.toNat).val.toNat = c.val.toNat := h1
  exact Char.eq_of_val_eq (UInt32.toNat.inj h2)

theorem map_toNat_map_ofNat_ascii (l : List Nat) (h : ∀ b ∈ l, b < 128) :
    (l.map Char.ofNat).map Char.toNat = l := by
  induction l with
  | nil => rfl
  | cons b t ih =>
    simp only [List.map_cons, List.cons.injEq]
    exact ⟨charToNat_ofNat (by have := h b (by simp); omega),
           ih (fun x hx => h x (by simp [hx]))⟩

/-! ### Numeral lemmas: Python `format` and `int` round-trip -/

theorem hexDigitVal?_hexUpperDigit {d : Nat} (h : d < 16) :
    hexDigitVal? (hexUpperDigit d) = some d := by
  interval_cases d <;> decide

theorem hexUpperDigit_range {d : Nat} (h : d < 16) :
    48 ≤ (hexUpperDigit d).toNat ∧ (hexUpperDigit d).toNat ≤ 70 := by
  interval_cases d <;> decide

theorem hexRevAux_lt : ∀ f n, ∀ d ∈ hexRevAux f n, d < 16 := by
  intro f
  induction f with
  | zero => intro n d hd; simp [hexRevAux] at hd
  | succ f ih =>
    intro n d hd
    match n with
    | 0 => simp [hexRevAux] at hd
    | n + 1 =>
      simp only [hexRevAux, List.mem_cons] at hd
      rcases hd with h | h
      · omega
      · exact ih _ _ h

theorem hexRevAux_len : ∀ f n w, n < 16 ^ w → (hexRevAux f n).length ≤ w := by
  intro f
  induction f with
  | zero => intro n w _; simp [hexRevAux]
  | succ f ih =>
    intro n w hw
    match n with
    | 0 => simp [hexRevAux]
    | n + 1 =>
      have hw1 : 1 ≤ w := by
        rcases Nat.eq_zero_or_pos w with h0 | h0
        · subst h0; rw [pow_zero] at hw; omega
        · exact h0
      have hdiv : (n + 1) / 16 < 16 ^ (w - 1) := by
        have h16 : 0 < 16 := by norm_num
        rw [Nat.div_lt_iff_lt_mul h16]
        calc n + 1 < 16 ^ w := hw
        _ = 16 ^ (w - 1) * 16 := by
          conv_lhs => rw [show w = (w - 1) + 1 by omega]
          rw [pow_succ]
      simp only [hexRevAux, List.length_cons]
      have := ih ((n + 1) / 16) (w - 1) hdiv
      omega

theorem hexRevAux_val : ∀ f n, n ≤ f → Nat.ofDigits 16 (hexRevAux f n) = n := by
  intro f
  induction f with
  | zero => intro n hn; interval_cases n; rfl
  | succ f ih =>
    intro n hn
    match n with
    | 0 => rfl
    | n + 1 =>
      have hq : (n + 1) / 16 ≤ f := by
        have h1 : (n + 1) / 16 < n + 1 := Nat.div_lt_self (by omega) (by norm_num)
        omega
      simp only [hexRevAux, Nat.ofDigits_cons, ih _ hq]
      omega

theorem foldl_mul_add (v : Char → Nat) (b : Nat) :
    ∀ (l : List Char) (acc : Nat),
      l.foldl (fun a c => b * a + v c) acc = acc * b ^ l.length + Nat.ofDigits b (l.map v).reverse := by
  intro l
  induction l with
  | nil => intro acc; simp [Nat.ofDigits_nil]
  | cons c t ih =>
    intro acc
    simp only [List.foldl_cons, List.map_cons, List.reverse_cons, List.length_cons]
    rw [ih (b * acc + v c), Nat.ofDigits_append]
    simp only [List.length_reverse, List.length_map, Nat.ofDigits_cons, Nat.ofDigits_nil]
    ring

theorem natToHexU_hex : ∀ c ∈ natToHexU n, isHexDigitB c = true := by
  intro c hc
  unfold natToHexU at hc
  split at hc
  · simp at hc; subst hc; decide
  · simp only [List.mem_map, List.mem_reverse] at hc
    obtain ⟨d, hd, rfl⟩ := hc
    simp [isHexDigitB, hexDigitVal?_hexUpperDigit (hexRevAux_lt _ _ _ hd)]

theorem natToHexU_ne_nil (n : Nat) : natToHexU n ≠ [] := by
  unfold natToHexU
  split
  · simp
  · rename_i h
    match hm : n, h with
    | m + 1, _ => simp [hexRevAux]

theorem hexFold_natToHexU (n : Nat) :
    (natToHexU n).foldl (fun a c => 16 * a + hexVal c) 0 = n := by
  unfold natToHexU
  split
  · rename_i h; subst h; decide
  · rw [foldl_mul_add]
    have hmap : ((hexRevAux n n).reverse.map hexUpperDigit).map hexVal = (hexRevAux n n).reverse := by
      rw [List.map_map]
      apply List.map_congr_left ?_ |>.trans (List.map_id _)
      intro d hd
      simp only [Function.comp_apply, id_eq, hexVal]
      rw [hexDigitVal?_hexUpperDigit (hexRevAux_lt _ _ _ (List.mem_reverse.mp hd))]
      rfl
    rw [hmap, List.reverse_reverse, hexRevAux_val n n le_rfl]
    simp

theorem pyIntHex?_natToHexU (n : Nat) : pyIntHex? (natToHexU n) = some n := by
  unfold pyIntHex?
  rw [if_pos ⟨natToHexU_ne_nil n, List.all_eq_true.mpr natToHexU_hex⟩, hexFold_natToHexU]

theorem ofDigits_replicate_zero (b : Nat) : ∀ k, Nat.ofDigits b (List.replicate k 0) = 0 := by
  intro k
  induction k with
  | zero => rfl
  | succ k ih => simp [List.replicate_succ, Nat.ofDigits_cons, ih]

theorem pyIntHex?_hexPad (w n : Nat) : pyIntHex? (hexPad w n) = some n := by
  unfold pyIntHex? hexPad
  rw [if_pos]
  · rw [List.foldl_append]
    have hrep : ∀ k acc, (List.replicate k ('0' : Char)).foldl (fun a c => 16 * a + hexVal c) acc
        = acc * 16 ^ k := by
      intro k acc
      rw [foldl_mul_add]
      simp only [List.map_replicate]
      rw [show hexVal '0' = 0 from rfl, List.reverse_replicate, ofDigits_replicate_zero]
      simp [List.length_replicate]
    rw [hrep, zero_mul, hexFold_natToHexU]
  · constructor
    · simp [natToHexU_ne_nil n]
    · rw [List.all_eq_true]
      intro c hc
      rcases List.mem_append.mp hc with h | h
      · rw [List.eq_of_mem_replicate h]; decide
      · exact natToHexU_hex c h

theorem natToHexU_len_le {n w : Nat} (h : n < 16 ^ w) (hw : 1 ≤ w) :
    (natToHexU n).length ≤ w := by
  unfold natToHexU
  split
  · simpa using hw
  · simpa using hexRevAux_len n n w h

theorem hexPad_length {w n : Nat} (h : n < 16 ^ w) (hw : 1 ≤ w) :
    (hexPad w n).length = w := by
  unfold hexPad
  have := natToHexU_len_le h hw
  simp only [List.length_append, List.length_replicate]
  omega

theorem natToDec_single {n : Nat} (h : n ≤ 9) : natToDec n = [decDigitChar n] := by
  interval_cases n <;> decide

theorem decDigitVal?_decDigitChar {n : Nat} (h : n ≤ 9) :
    decDigitVal? (decDigitChar n) = some n := by
  interval_cases n <;> decide

theorem bytesHexU_length (bs : List Nat) : (bytesHexU bs).length = 2 * bs.length := by
  induction bs with
  | nil => rfl
  | cons b t ih =>
    simp only [bytesHexU, List.map_cons, List.flatten_cons] at ih ⊢
    simp [byteHexU, List.length_append, ih]
    omega

theorem fromhex?_bytesHexU (bs : List Nat) (h : ∀ b ∈ bs, b < 256) :
    fromhex? (bytesHexU bs) = some bs := by
  induction bs with
  | nil => rfl
  | cons b t ih =>
    have hb : b < 256 := h b (by simp)
    have hdiv : b / 16 < 16 := by omega
    have hmod : b % 16 < 16 := by omega
    show fromhex? (hexUpperDigit (b / 16) :: hexUpperDigit (b % 16) :: bytesHexU t) = _
    rw [fromhex?, hexDigitVal?_hexUpperDigit hdiv, hexDigitVal?_hexUpperDigit hmod,
      ih (fun x hx => h x (by simp [hx]))]
    show some ((16 * (b / 16) + b % 16) :: t) = some (b :: t)
    have : 16 * (b / 16) + b % 16 = b := by omega
    rw [this]

theorem decRevAux_lt : ∀ f n, ∀ d ∈ decRevAux f n, d < 10 := by
  intro f
  induction f with
  | zero => intro n d hd; simp [decRevAux] at hd
  | succ f ih =>
    intro n d hd
    match n with
    | 0 => simp [decRevAux] at hd
    | n + 1 =>
      simp only [decRevAux, List.mem_cons] at hd
      rcases hd with h | h
      · omega
      · exact ih _ _ h

theorem natToDec_range : ∀ n, ∀ c ∈ natToDec n, 48 ≤ c.toNat ∧ c.toNat ≤ 57 := by
  intro n c hc
  unfold natToDec at hc
  split at hc
  · simp at hc; subst hc; decide
  · simp only [List.mem_map, List.mem_reverse] at hc
    obtain ⟨d, hd, rfl⟩ := hc
    have hd10 : d < 10 := decRevAux_lt _ _ _ hd
    unfold decDigitChar
    rw [charToNat_ofNat (by omega)]
    omega

theorem hexPad_range : ∀ w n, ∀ c ∈ hexPad w n, 48 ≤ c.toNat ∧ c.toNat ≤ 70 := by
  intro w n c hc
  rcases List.mem_append.mp hc with h | h
  · rw [List.eq_of_mem_replicate h]; decide
  · unfold natToHexU at h
    split at h
    · simp at h; subst h; decide
    · simp only [List.mem_map, List.mem_reverse] at h
      obtain ⟨d, hd, rfl⟩ := h
      exact hexUpperDigit_range (hexRevAux_lt _ _ _ hd)

theorem bytesHexU_range (bs : List Nat) (h : ∀ b ∈ bs, b < 256) :
    ∀ c ∈ bytesHexU bs, 48 ≤ c.toNat ∧ c.toNat ≤ 70 := by
  intro c hc
  unfold bytesHexU at hc
  simp only [List.mem_flatten, List.mem_map] at hc
  obtain ⟨l, ⟨b, hb, rfl⟩, hcl⟩ := hc
  have hb256 : b < 256 := h b hb
  unfold byteHexU at hcl
  simp only [List.mem_cons, List.not_mem_nil, or_false] at hcl
  rcases hcl with rfl | rfl
  · exact hexUpperDigit_range (by omega)
  · exact hexUpperDigit_range (by omega)

theorem encode_dlc_hex_range (n : Nat) :
    48 ≤ (encode_dlc_hex n).toNat ∧ (encode_dlc_hex n).toNat ≤ 70 := by
  unfold encode_dlc_hex
  split_ifs with h1 h2 h3 h4 h5 h6 h7
  · exact hexUpperDigit_range (by omega)
  all_goals decide

/-! ### Framer lemmas -/

theorem findIdxO_eq_none {p : Nat → Bool} :
    ∀ {l : List Nat}, findIdxO p l = none → ∀ b ∈ l, p b = false := by
  intro l
  induction l with
  | nil => intro _ b hb; simp at hb
  | cons a t ih =>
    intro h b hb
    unfold findIdxO at h
    by_cases ha : p a
    · simp [ha] at h
    · rcases List.mem_cons.mp hb with rfl | hbt
      · simpa using ha
      · have ht : findIdxO p t = none := by
          rw [if_neg ha] at h
          exact Option.map_eq_none'.mp h
        exact ih ht b hbt

theorem findIdxO_eq_some {p : Nat → Bool} :
    ∀ {l : List Nat} {k : Nat}, findIdxO p l = some k →
      ∃ pre x suf, l = pre ++ x :: suf ∧ pre.length = k ∧ p x = true ∧ ∀ b ∈ pre, p b = false := by
  intro l
  induction l with
  | nil => intro k h; simp [findIdxO] at h
  | cons a t ih =>
    intro k h
    unfold findIdxO at h
    by_cases ha : p a
    · rw [if_pos ha] at h
      exact ⟨[], a, t, by simp, by simpa using h, ha, by simp⟩
    · rw [if_neg ha] at h
      obtain ⟨j, hj, rfl⟩ := Option.map_eq_some'.mp h
      obtain ⟨pre, x, suf, rfl, hlen, hx, hpre⟩ := ih hj
      refine ⟨a :: pre, x, suf, by simp, by simp [hlen], hx, ?_⟩
      intro b hb
      rcases List.mem_cons.mp hb with rfl | hbp
      · simpa using ha
      · exact hpre b hbp

theorem findIdxO_append_cons {p : Nat → Bool} (pre : List Nat) (x : Nat) (suf : List Nat)
    (hpre : ∀ b ∈ pre, p b = false) (hx : p x = true) :
    findIdxO p (pre ++ x :: suf) = some pre.length := by
  induction pre with
  | nil => simp [findIdxO, hx]
  | cons a t ih =>
    have ha : p a = false := hpre a (by simp)
    simp only [List.cons_append, findIdxO, ha, Bool.false_eq_true, if_false]
    rw [show t.append (x :: suf) = t ++ x :: suf from rfl, ih (fun b hb => hpre b (by simp [hb]))]
    simp

theorem minIdx_map_succ (a c : Option Nat) :
    minIdx (a.map (· + 1)) (c.map (· + 1)) = (minIdx a c).map (· + 1) := by
  cases a <;> cases c <;> simp [minIdx, Nat.succ_min_succ]

theorem minIdx_find : ∀ l : List Nat,
    minIdx (findIdxO (· == 13) l) (findIdxO (· == 7) l) = findIdxO isTerm l := by
  intro l
  induction l with
  | nil => rfl
  | cons b t ih =>
    simp only [findIdxO, isTerm]
    by_cases h13 : b = 13
    · subst h13
      simp only [show ((13 : Nat) == 13) = true from rfl, if_true,
        show ((13 : Nat) == 7) = false from rfl, Bool.false_eq_true, if_false, Bool.true_or]
      cases findIdxO (· == 7) t <;> simp [minIdx]
    · by_cases h7 : b = 7
      · subst h7
        simp only [show ((7 : Nat) == 13) = false from rfl, show ((7 : Nat) == 7) = true from rfl,
          Bool.false_eq_true, if_false, if_true, Bool.or_true]
        cases findIdxO (· == 13) t <;> simp [minIdx]
      · have e13 : (b == 13) = false := by simpa using h13
        have e7 : (b == 7) = false := by simpa using h7
        simp only [e13, e7, Bool.false_eq_true, if_false, Bool.or_self]
        rw [minIdx_map_succ, ih]

theorem take_len_succ {α : Type} (pre : List α) (x : α) (suf : List α) :
    (pre ++ x :: suf).take (pre.length + 1) = pre ++ [x] := by
  induction pre with
  | nil => rfl
  | cons a t ih => simpa using ih

theorem drop_len_succ {α : Type} (pre : List α) (x : α) (suf : List α) :
    (pre ++ x :: suf).drop (pre.length + 1) = suf := by
  induction pre with
  | nil => rfl
  | cons a t ih => simp [ih]

theorem decodeUtf8Aux_ascii :
    ∀ (f : Nat) (l : List Nat), l.length ≤ f → (∀ b ∈ l, b < 128) →
      decodeUtf8Aux f l = some (l.map Char.ofNat) := by
  intro f
  induction f with
  | zero =>
    intro l hl _
    have : l = [] := List.eq_nil_of_length_eq_zero (by omega)
    subst this; rfl
  | succ f ih =>
    intro l hl hb
    match l with
    | [] => rfl
    | b :: rest =>
      have hb127 : b ≤ 0x7F := by have := hb b (by simp); omega
      simp only [decodeUtf8Aux, if_pos hb127]
      rw [ih rest (by simpa using hl) (fun x hx => hb x (by simp [hx]))]
      rfl

theorem decodeUtf8_ascii (l : List Nat) (h : ∀ b ∈ l, b < 128) :
    decodeUtf8? l = some (l.map Char.ofNat) :=
  decodeUtf8Aux_ascii l.length l le_rfl h

theorem read_split (pre : List Nat) (x : Nat) (suf : List Nat)
    (hpre : ∀ b ∈ pre, isTerm b = false) (hx : isTerm x = true)
    (hascii : ∀ b ∈ pre ++ [x], b < 128) :
    _read (pre ++ x :: suf) = .ok (some ((pre ++ [x]).map Char.ofNat, suf)) := by
  have hfind : findIdxO isTerm (pre ++ x :: suf) = some pre.length :=
    findIdxO_append_cons pre x suf hpre hx
  have hmin : minIdx (findIdxO (· == 13) (pre ++ x :: suf)) (findIdxO (· == 7) (pre ++ x :: suf))
      = some pre.length := by rw [minIdx_find, hfind]
  simp only [_read, hmin, take_len_succ, drop_len_succ]
  rw [decodeUtf8_ascii _ hascii]

theorem read_none {buf : List Nat} (h : findIdxO isTerm buf = none) : _read buf = .ok none := by
  have hmin : minIdx (findIdxO (· == 13) buf) (findIdxO (· == 7) buf) = none := by
    rw [minIdx_find, h]
  simp only [_read, hmin]

theorem readAllFuel_of_none {buf : List Nat} (h : _read buf = .ok none) :
    ∀ f, readAllFuel f buf = ([], buf) := by
  intro f
  cases f with
  | zero => rfl
  | succ f => simp [readAllFuel, h]

theorem readAllFuel_step {buf : List Nat} {s : List Char} {rest : List Nat} (f : Nat)
    (h : _read buf = .ok (some (s, rest))) :
    readAllFuel (f + 1) buf = (s :: (readAllFuel f rest).1, (readAllFuel f rest).2) := by
  simp only [readAllFuel, h]

theorem read_some_shrink {buf : List Nat} {s : List Char} {rest : List Nat}
    (h : _read buf = .ok (some (s, rest))) : rest.length < buf.length := by
  match buf with
  | [] => simp [_read, findIdxO, minIdx] at h
  | b :: t =>
    simp only [_read] at h
    rcases hmin : minIdx (findIdxO (· == 13) (b :: t)) (findIdxO (· == 7) (b :: t)) with _ | k
    · simp only [hmin] at h; simp at h
    · simp only [hmin] at h
      rcases hdec : decodeUtf8? ((b :: t).take (k + 1)) with _ | str
      · simp only [hdec] at h; simp at h
      · simp only [hdec] at h
        simp only [Except.ok.injEq, Option.some.injEq, Prod.mk.injEq] at h
        have : rest = (b :: t).drop (k + 1) := h.2.symm
        subst this
        simp [List.length_drop]
        omega

theorem readAllFuel_congr : ∀ (f1 f2 : Nat) (buf : List Nat),
    buf.length ≤ f1 → buf.length ≤ f2 → readAllFuel f1 buf = readAllFuel f2 buf := by
  intro f1
  induction f1 with
  | zero =>
    intro f2 buf h1 _
    have : buf = [] := List.eq_nil_of_length_eq_zero (by omega)
    subst this
    rw [readAllFuel_of_none (by rfl) f2]
    rfl
  | succ f1 ih =>
    intro f2 buf h1 h2
    cases f2 with
    | zero =>
      have : buf = [] := List.eq_nil_of_length_eq_zero (by omega)
      subst this
      rw [readAllFuel_of_none (by rfl) (f1 + 1)]
      rfl
    | succ f2 =>
      rcases hr : _read buf with e | o
      · simp [readAllFuel, hr]
      · rcases o with _ | ⟨s, rest⟩
        · simp [readAllFuel, hr]
        · have hlt := read_some_shrink hr
          rw [readAllFuel_step f1 hr, readAllFuel_step f2 hr,
            ih f2 rest (by omega) (by omega)]

theorem readAll_spec : ∀ (n : Nat) (buf : List Nat), buf.length ≤ n → (∀ b ∈ buf, b < 128) →
    ((readAll buf).1.map (fun s => s.map Char.toNat)).flatten ++ (readAll buf).2 = buf ∧
    (∀ s ∈ (readAll buf).1, ∃ pre x, s.map Char.toNat = pre ++ [x] ∧ isTerm x = true ∧
      ∀ b ∈ pre, isTerm b = false) ∧
    (∀ b ∈ (readAll buf).2, isTerm b = false) := by
  intro n
  induction n with
  | zero =>
    intro buf hlen _
    have : buf = [] := List.eq_nil_of_length_eq_zero (by omega)
    subst this
    exact ⟨rfl, by simp [readAll, readAllFuel], by simp [readAll, readAllFuel]⟩
  | succ n ih =>
    intro buf hlen hascii
    cases hf : findIdxO isTerm buf with
    | none =>
      have hA : readAll buf = ([], buf) := readAllFuel_of_none (read_none hf) _
      refine ⟨?_, ?_, ?_⟩
      · rw [hA]; simp
      · rw [hA]; simp
      · rw [hA]; exact findIdxO_eq_none hf
    | some k =>
      obtain ⟨pre, x, suf, hbuf, hklen, hx, hpre⟩ := findIdxO_eq_some hf
      subst hbuf
      have hascii1 : ∀ b ∈ pre ++ [x], b < 128 := by
        intro b hb
        apply hascii
        rcases List.mem_append.mp hb with h | h
        · exact List.mem_append.mpr (Or.inl h)
        · simp at h; subst h; simp
      have hr := read_split pre x suf hpre hx hascii1
      have hstep : readAll (pre ++ x :: suf)
          = ((pre ++ [x]).map Char.ofNat :: (readAll suf).1, (readAll suf).2) := by
        show readAllFuel (pre ++ x :: suf).length (pre ++ x :: suf) = _
        have hL : (pre ++ x :: suf).length = (pre.length + suf.length) + 1 := by
          simp [List.length_append]; omega
        rw [hL, readAllFuel_step _ hr,
          readAllFuel_congr (pre.length + suf.length) suf.length suf (by omega) le_rfl]
        rfl
      have hsuf_len : suf.length ≤ n := by
        have : (pre ++ x :: suf).length = pre.length + suf.length + 1 := by
          simp [List.length_append]; omega
        omega
      obtain ⟨ihj, ihs, ihr⟩ := ih suf hsuf_len
        (fun b hb => hascii b (List.mem_append.mpr (Or.inr (by simp [hb]))))
      have hhead : ((pre ++ [x]).map Char.ofNat).map Char.toNat = pre ++ [x] :=
        map_toNat_map_ofNat_ascii _ hascii1
      refine ⟨?_, ?_, ?_⟩
      · rw [hstep]
        simp only [List.map_cons, List.flatten_cons, hhead]
        rw [List.append_assoc, ihj]
        simp
      · rw [hstep]
        intro s hs
        rcases List.mem_cons.mp hs with rfl | hs'
        · exact ⟨pre, x, hhead, hx, hpre⟩
        · exact ihs s hs'
      · rw [hstep]; exact ihr

/-! ### Response-parsing lemmas for the frame decoder -/

theorem get?_append_len {α : Type} (l₁ l₂ : List α) : (l₁ ++ l₂).get? l₁.length = l₂.head? := by
  induction l₁ with
  | nil => cases l₂ <;> rfl
  | cons a t ih => simpa using ih

theorem take_append_len {α : Type} (l₁ l₂ : List α) : (l₁ ++ l₂).take l₁.length = l₁ := by
  induction l₁ with
  | nil => rfl
  | cons a t ih => simp [ih]

theorem drop_append_len_add {α : Type} (l₁ l₂ : List α) (n : Nat) :
    (l₁ ++ l₂).drop (l₁.length + n) = l₂.drop n := by
  induction l₁ with
  | nil => simp
  | cons a t ih => simp [Nat.succ_add, ih]

theorem take_append_of_len {α : Type} {l₁ : List α} {w : Nat} (hl : l₁.length = w)
    (l₂ : List α) : (l₁ ++ l₂).take w = l₁ := by
  rw [← hl]; exact take_append_len _ _

theorem hexField_of_pad {w a : Nat} (hw : 1 ≤ w) (hlt : a < 16 ^ w) (rest : List Char)
    (c0 : Char) : hexField (c0 :: (hexPad w a ++ rest)) 1 (1 + w) = .ok a := by
  unfold hexField
  have hs : pySlice (c0 :: (hexPad w a ++ rest)) 1 (1 + w) = hexPad w a := by
    unfold pySlice
    have h1 : (c0 :: (hexPad w a ++ rest)).drop 1 = hexPad w a ++ rest := rfl
    rw [h1, show 1 + w - 1 = w from by omega, take_append_of_len (hexPad_length hlt hw)]
  rw [hs, pyIntHex?_hexPad]

theorem bytesHexU_take {dlc : Nat} (data : List Nat) (hlen : data.length = dlc)
    (tail : List Char) : (bytesHexU data ++ tail).take (dlc * 2) = bytesHexU data := by
  have : (bytesHexU data).length = dlc * 2 := by rw [bytesHexU_length, hlen]; omega
  rw [← this, take_append_len]

theorem drop_append_of_len {α : Type} {l₁ : List α} {w : Nat} (hl : l₁.length = w)
    (l₂ : List α) : (l₁ ++ l₂).drop w = l₂ := by
  have h0 := drop_append_len_add l₁ l₂ 0
  rw [Nat.add_zero, List.drop_zero] at h0
  rw [← hl]
  exact h0

theorem except_bind_ok {e a b : Type} (x : a) (f : a → Except e b) :
    (Except.ok x >>= f) = f x := rfl

theorem decode_encode_of_canonical :
    ∀ n ∈ canonicalFd, decode_hex_dlc (encode_dlc_hex n) = .ok n := by
  decide

theorem no_fd_padding_of_canonical :
    ∀ n ∈ canonicalFd, ¬(encode_dlc_hex n = 'F' ∧ n < 64) := by
  decide

theorem digitAt_of_layout {w a dlc : Nat} (hplen : (hexPad w a).length = w) (hdlc : dlc ≤ 9)
    (c0 : Char) (B : List Char) :
    digitAt (c0 :: (hexPad w a ++ ([decDigitChar dlc] ++ B))) (w + 1) = .ok dlc := by
  unfold digitAt
  have hget : (c0 :: (hexPad w a ++ ([decDigitChar dlc] ++ B))).get? (w + 1)
      = some (decDigitChar dlc) := by
    show ((c0 :: hexPad w a) ++ ([decDigitChar dlc] ++ B)).get? (w + 1) = _
    rw [show w + 1 = (c0 :: hexPad w a).length from by simp [hplen], get?_append_len]
    rfl
  simp only [hget]
  rw [decDigitVal?_decDigitChar hdlc]

theorem charAt_of_layout {w a : Nat} (hplen : (hexPad w a).length = w)
    (c0 x : Char) (B : List Char) :
    charAt (c0 :: (hexPad w a ++ ([x] ++ B))) (w + 1) = .ok x := by
  unfold charAt
  have hget : (c0 :: (hexPad w a ++ ([x] ++ B))).get? (w + 1) = some x := by
    show ((c0 :: hexPad w a) ++ ([x] ++ B)).get? (w + 1) = _
    rw [show w + 1 = (c0 :: hexPad w a).length from by simp [hplen], get?_append_len]
    rfl
  simp only [hget]

theorem dataField_of_layout {w a dlc : Nat} (hplen : (hexPad w a).length = w)
    (data : List Nat) (hlen : data.length = dlc) (hdata : ∀ b ∈ data, b < 256)
    (c0 x : Char) (tail : List Char) :
    dataField (c0 :: (hexPad w a ++ ([x] ++ (bytesHexU data ++ tail)))) (w + 2) dlc
      = .ok data := by
  unfold dataField
  have hslice : pySlice (c0 :: (hexPad w a ++ ([x] ++ (bytesHexU data ++ tail)))) (w + 2)
      (w + 2 + dlc * 2) = bytesHexU data := by
    unfold pySlice
    have hdrop : (c0 :: (hexPad w a ++ ([x] ++ (bytesHexU data ++ tail)))).drop (w + 2)
        = bytesHexU data ++ tail := by
      rw [← List.append_assoc]
      exact drop_append_of_len (show (c0 :: (hexPad w a ++ [x])).length = w + 2 from by simp [hplen]) _
    rw [hdrop, show w + 2 + dlc * 2 - (w + 2) = dlc * 2 from by omega,
      bytesHexU_take data hlen tail]
  rw [hslice, fromhex?_bytesHexU data hdata]

/-! One lemma per receive branch of `_recv_internal`, at the exact layout
`send` produces (an arbitrary `tail` stands for the `\r` terminator). -/

theorem parseFrame_t (a dlc : Nat) (data : List Nat) (tail : List Char)
    (hid : a < 16 ^ 3) (hdlc : dlc ≤ 8) (hlen : data.length = dlc)
    (hdata : ∀ b ∈ data, b < 256) :
    parseFrame ('t' :: (hexPad 3 a ++ ([decDigitChar dlc] ++ (bytesHexU data ++ tail))))
      = .ok (some ⟨a, false, false, false, false, dlc, data⟩) := by
  have hplen : (hexPad 3 a).length = 3 := hexPad_length hid (by norm_num)
  have h1 : hexField ('t' :: (hexPad 3 a ++ ([decDigitChar dlc] ++ (bytesHexU data ++ tail))))
      1 4 = .ok a := hexField_of_pad (by norm_num) hid _ 't'
  have h2 := digitAt_of_layout hplen (show dlc ≤ 9 by omega) 't' (bytesHexU data ++ tail)
  have h3 := dataField_of_layout hplen data hlen hdata 't' (decDigitChar dlc) tail
  simp only [parseFrame]
  rw [if_neg (by decide : ¬(('t' : Char) = 'T' ∨ ('t' : Char) = 'x')), if_pos trivial]
  simp only [h1, h2, h3, except_bind_ok]

theorem parseFrame_T (a dlc : Nat) (data : List Nat) (tail : List Char)
    (hid : a < 16 ^ 8) (hdlc : dlc ≤ 8) (hlen : data.length = dlc)
    (hdata : ∀ b ∈ data, b < 256) :
    parseFrame ('T' :: (hexPad 8 a ++ ([decDigitChar dlc] ++ (bytesHexU data ++ tail))))
      = .ok (some ⟨a, true, false, false, false, dlc, data⟩) := by
  have hplen : (hexPad 8 a).length = 8 := hexPad_length hid (by norm_num)
  have h1 : hexField ('T' :: (hexPad 8 a ++ ([decDigitChar dlc] ++ (bytesHexU data ++ tail))))
      1 9 = .ok a := hexField_of_pad (by norm_num) hid _ 'T'
  have h2 := digitAt_of_layout hplen (show dlc ≤ 9 by omega) 'T' (bytesHexU data ++ tail)
  have h3 := dataField_of_layout hplen data hlen hdata 'T' (decDigitChar dlc) tail
  simp only [parseFrame]
  rw [if_pos (Or.inl trivial)]
  simp only [h1, h2, h3, except_bind_ok]

theorem parseFrame_r (a dlc : Nat) (tail : List Char)
    (hid : a < 16 ^ 3) (hdlc : dlc ≤ 8) :
    parseFrame ('r' :: (hexPad 3 a ++ ([decDigitChar dlc] ++ tail)))
      = .ok (some ⟨a, false, true, false, false, dlc, []⟩) := by
  have hplen : (hexPad 3 a).length = 3 := hexPad_length hid (by norm_num)
  have h1 : hexField ('r' :: (hexPad 3 a ++ ([decDigitChar dlc] ++ tail)))
      1 4 = .ok a := hexField_of_pad (by norm_num) hid _ 'r'
  have h2 := digitAt_of_layout hplen (show dlc ≤ 9 by omega) 'r' (tail)
  simp only [parseFrame]
  rw [if_neg (by decide : ¬(('r' : Char) = 'T' ∨ ('r' : Char) = 'x')),
    if_neg (by decide : ¬(('r' : Char) = 't')), if_pos trivial]
  simp only [h1, h2, except_bind_ok]

theorem parseFrame_R (a dlc : Nat) (tail : List Char)
    (hid : a < 16 ^ 8) (hdlc : dlc ≤ 8) :
    parseFrame ('R' :: (hexPad 8 a ++ ([decDigitChar dlc] ++ tail)))
      = .ok (some ⟨a, true, true, false, false, dlc, []⟩) := by
  have hplen : (hexPad 8 a).length = 8 := hexPad_length hid (by norm_num)
  have h1 : hexField ('R' :: (hexPad 8 a ++ ([decDigitChar dlc] ++ tail)))
      1 9 = .ok a := hexField_of_pad (by norm_num) hid _ 'R'
  have h2 := digitAt_of_layout hplen (show dlc ≤ 9 by omega) 'R' (tail)
  simp only [parseFrame]
  rw [if_neg (by decide : ¬(('R' : Char) = 'T' ∨ ('R' : Char) = 'x')),
    if_neg (by decide : ¬(('R' : Char) = 't')), if_neg (by decide : ¬(('R' : Char) = 'r')),
    if_pos trivial]
  simp only [h1, h2, except_bind_ok]

theorem parseFrame_d (a dlc : Nat) (data : List Nat) (tail : List Char)
    (hid : a < 16 ^ 3) (hdlc : dlc ∈ canonicalFd) (hlen : data.length = dlc)
    (hdata : ∀ b ∈ data, b < 256) :
    parseFrame ('d' :: (hexPad 3 a ++ ([encode_dlc_hex dlc] ++ (bytesHexU data ++ tail))))
      = .ok (some ⟨a, false, false, true, false, dlc, data⟩) := by
  have hplen : (hexPad 3 a).length = 3 := hexPad_length hid (by norm_num)
  have h1 : hexField ('d' :: (hexPad 3 a ++ ([encode_dlc_hex dlc] ++ (bytesHexU data ++ tail))))
      1 4 = .ok a := hexField_of_pad (by norm_num) hid _ 'd'
  have h2 := charAt_of_layout hplen 'd' (encode_dlc_hex dlc) (bytesHexU data ++ tail)
  have hde : decode_hex_dlc (encode_dlc_hex dlc) = .ok dlc := decode_encode_of_canonical dlc hdlc
  have h3 := dataField_of_layout hplen data hlen hdata 'd' (encode_dlc_hex dlc) tail
  simp only [parseFrame]
  rw [if_neg (by decide : ¬(('d' : Char) = 'T' ∨ ('d' : Char) = 'x')),
    if_neg (by decide : ¬(('d' : Char) = 't')), if_neg (by decide : ¬(('d' : Char) = 'r')),
    if_neg (by decide : ¬(('d' : Char) = 'R')), if_pos trivial]
  simp only [h1, h2, except_bind_ok, hde, h3]

theorem parseFrame_D (a dlc : Nat) (data : List Nat) (tail : List Char)
    (hid : a < 16 ^ 8) (hdlc : dlc ∈ canonicalFd) (hlen : data.length = dlc)
    (hdata : ∀ b ∈ data, b < 256) :
    parseFrame ('D' :: (hexPad 8 a ++ ([encode_dlc_hex dlc] ++ (bytesHexU data ++ tail))))
      = .ok (some ⟨a, true, false, true, false, dlc, data⟩) := by
  have hplen : (hexPad 8 a).length = 8 := hexPad_length hid (by norm_num)
  have h1 : hexField ('D' :: (hexPad 8 a ++ ([encode_dlc_hex dlc] ++ (bytesHexU data ++ tail))))
      1 9 = .ok a := hexField_of_pad (by norm_num) hid _ 'D'
  have h2 := charAt_of_layout hplen 'D' (encode_dlc_hex dlc) (bytesHexU data ++ tail)
  have hde : decode_hex_dlc (encode_dlc_hex dlc) = .ok dlc := decode_encode_of_canonical dlc hdlc
  have h3 := dataField_of_layout hplen data hlen hdata 'D' (encode_dlc_hex dlc) tail
  simp only [parseFrame]
  rw [if_neg (by decide : ¬(('D' : Char) = 'T' ∨ ('D' : Char) = 'x')),
    if_neg (by decide : ¬(('D' : Char) = 't')), if_neg (by decide : ¬(('D' : Char) = 'r')),
    if_neg (by decide : ¬(('D' : Char) = 'R')), if_neg (by decide : ¬(('D' : Char) = 'd')),
    if_pos trivial]
  simp only [h1, h2, except_bind_ok, hde, h3]

theorem parseFrame_b (a dlc : Nat) (data : List Nat) (tail : List Char)
    (hid : a < 16 ^ 3) (hdlc : dlc ∈ canonicalFd) (hlen : data.length = dlc)
    (hdata : ∀ b ∈ data, b < 256) :
    parseFrame ('b' :: (hexPad 3 a ++ ([encode_dlc_hex dlc] ++ (bytesHexU data ++ tail))))
      = .ok (some ⟨a, false, false, true, true, dlc, data⟩) := by
  have hplen : (hexPad 3 a).length = 3 := hexPad_length hid (by norm_num)
  have h1 : hexField ('b' :: (hexPad 3 a ++ ([encode_dlc_hex dlc] ++ (bytesHexU data ++ tail))))
      1 4 = .ok a := hexField_of_pad (by norm_num) hid _ 'b'
  have h2 := charAt_of_layout hplen 'b' (encode_dlc_hex dlc) (bytesHexU data ++ tail)
  have hde : decode_hex_dlc (encode_dlc_hex dlc) = .ok dlc := decode_encode_of_canonical dlc hdlc
  have h3 := dataField_of_layout hplen data hlen hdata 'b' (encode_dlc_hex dlc) tail
  simp only [parseFrame]
  rw [if_neg (by decide : ¬(('b' : Char) = 'T' ∨ ('b' : Char) = 'x')),
    if_neg (by decide : ¬(('b' : Char) = 't')), if_neg (by decide : ¬(('b' : Char) = 'r')),
    if_neg (by decide : ¬(('b' : Char) = 'R')), if_neg (by decide : ¬(('b' : Char) = 'd')),
    if_neg (by decide : ¬(('b' : Char) = 'D')), if_pos trivial]
  simp only [h1, h2, except_bind_ok, hde, h3]

theorem parseFrame_B (a dlc : Nat) (data : List Nat) (tail : List Char)
    (hid : a < 16 ^ 8) (hdlc : dlc ∈ canonicalFd) (hlen : data.length = dlc)
    (hdata : ∀ b ∈ data, b < 256) :
    parseFrame ('B' :: (hexPad 8 a ++ ([encode_dlc_hex dlc] ++ (bytesHexU data ++ tail))))
      = .ok (some ⟨a, true, false, true, true, dlc, data⟩) := by
  have hplen : (hexPad 8 a).length = 8 := hexPad_length hid (by norm_num)
  have h1 : hexField ('B' :: (hexPad 8 a ++ ([encode_dlc_hex dlc] ++ (bytesHexU data ++ tail))))
      1 9 = .ok a := hexField_of_pad (by norm_num) hid _ 'B'
  have h2 := charAt_of_layout hplen 'B' (encode_dlc_hex dlc) (bytesHexU data ++ tail)
  have hde : decode_hex_dlc (encode_dlc_hex dlc) = .ok dlc := decode_encode_of_canonical dlc hdlc
  have h3 := dataField_of_layout hplen data hlen hdata 'B' (encode_dlc_hex dlc) tail
  simp only [parseFrame]
  rw [if_neg (by decide : ¬(('B' : Char) = 'T' ∨ ('B' : Char) = 'x')),
    if_neg (by decide : ¬(('B' : Char) = 't')), if_neg (by decide : ¬(('B' : Char) = 'r')),
    if_neg (by decide : ¬(('B' : Char) = 'R')), if_neg (by decide : ¬(('B' : Char) = 'd')),
    if_neg (by decide : ¬(('B' : Char) = 'D')), if_neg (by decide : ¬(('B' : Char) = 'b')),
    if_pos trivial]
  simp only [h1, h2, except_bind_ok, hde, h3]


theorem decDigitChar_range {dlc : Nat} (h : dlc ≤ 9) :
    48 ≤ (decDigitChar dlc).toNat ∧ (decDigitChar dlc).toNat ≤ 57 := by
  unfold decDigitChar
  rw [charToNat_ofNat (by omega)]
  omega

/-- Feeding a terminated command whose body consists of wire characters
(printable, in particular neither terminator) to `_recv_internal` hands the
whole response, terminator included, to the frame parser. -/
theorem recv_of_wire (s : List Char) (hw : ∀ c ∈ s, 48 ≤ c.toNat ∧ c.toNat ≤ 122) :
    _recv_internal ((s ++ ['\r']).map Char.toNat) = parseFrame (s ++ ['\r']) := by
  have hmap : (s ++ ['\r']).map Char.toNat = s.map Char.toNat ++ [13] := by
    rw [List.map_append]; rfl
  have hpre : ∀ b ∈ s.map Char.toNat, isTerm b = false := by
    intro b hb
    simp only [List.mem_map] at hb
    obtain ⟨c, hc, rfl⟩ := hb
    have hr := hw c hc
    unfold isTerm
    have h13 : (c.toNat == 13) = false := by simp; omega
    have h7 : (c.toNat == 7) = false := by simp; omega
    rw [h13, h7]
    rfl
  have hascii : ∀ b ∈ s.map Char.toNat ++ [13], b < 128 := by
    intro b hb
    rcases List.mem_append.mp hb with hb | hb
    · simp only [List.mem_map] at hb
      obtain ⟨c, hc, rfl⟩ := hb
      have := hw c hc
      omega
    · simp at hb
      omega
  have hread : _read (s.map Char.toNat ++ [13])
      = .ok (some ((s.map Char.toNat ++ [13]).map Char.ofNat, [])) := by
    have hsplit := read_split (s.map Char.toNat) 13 [] hpre (by decide) hascii
    simpa using hsplit
  have hchars : ((s.map Char.toNat ++ [13]).map Char.ofNat) = s ++ ['\r'] := by
    rw [List.map_append]
    congr 1
    rw [List.map_map]
    apply (List.map_congr_left ?_).trans (List.map_id _)
    intro c hc
    exact charOfNat_toNat_ascii c (by have := hw c hc; omega)
  unfold _recv_internal
  rw [hmap]
  simp only [hread, hchars]

end Slcan

namespace Slcan

/-! ### Claim C3: DLC round-trip -/

/-- C3: for every canonical byte count `n ∈ {0..8,12,16,20,24,32,48,64}`,
`decode_hex_dlc (encode_dlc_hex n)` returns `n` (no exception); and for
every nibble character `c ∈ {'0'..'9','A'..'F'}`, decoding returns a value
that `encode_dlc_hex` maps back to `c`. -/
theorem dlc_round_trip :
    (∀ n ∈ canonicalFd, decode_hex_dlc (encode_dlc_hex n) = .ok n) ∧
    (∀ c ∈ nibbleCharsU, (decode_hex_dlc c).map encode_dlc_hex = .ok c) := by
  decide

/-- Witness: the round trip evaluated at the canonical count 12 and at the
nibble `'A'`. -/
theorem dlc_round_trip_witness :
    decode_hex_dlc (encode_dlc_hex 12) = .ok 12 ∧
    (decode_hex_dlc 'A').map encode_dlc_hex = .ok 'A' :=
  ⟨dlc_round_trip.1 12 (by decide), dlc_round_trip.2 'A' (by decide)⟩

/-! ### Claim C8: DLC codec defaults -/

/-- C8 counterexample: outside ASCII the unrecognized-character default
fails.  The superscript `'²'` is not a recognized DLC nibble, yet
`decode_hex_dlc` raises an uncaught `ValueError` (`str.isdigit` accepts it,
`int` rejects it) instead of decoding it to 64; and the Arabic-Indic digit
`'٣'` is not a recognized nibble either, yet it decodes to 3 (`int` accepts
Unicode decimal digits), not to 64. -/
theorem dlc_codec_defaults_counterexample :
    ('²' ∉ nibbleChars ∧ decode_hex_dlc '²' = .error .valueError) ∧
    ('٣' ∉ nibbleChars ∧ decode_hex_dlc '٣' = .ok 3 ∧ (3 : Nat) ≠ 64) := by
  decide

/-- C8 (amended): `decode_hex_dlc` is case-insensitive, and every ASCII
character (`c.toNat < 128`) that is not a recognized DLC nibble decodes to
64; outside ASCII the default does not hold — digit-valued characters
rejected by `int` (such as `'²'`) raise an uncaught `ValueError` and
non-ASCII decimal digits (such as `'٣'`) decode to their numeric value.
`encode_dlc_hex` of any length outside the canonical set returns `'F'`. -/
theorem dlc_codec_defaults :
    (∀ c : Char, c.toNat < 128 →
      decode_hex_dlc c = decode_hex_dlc c.toUpper ∧
      decode_hex_dlc c = decode_hex_dlc c.toLower ∧
      (c ∉ nibbleChars → decode_hex_dlc c = .ok 64)) ∧
    (∀ n : Nat, n ∉ canonicalFd → encode_dlc_hex n = 'F') := by
  constructor
  · have key : ∀ i : Fin 128,
        decode_hex_dlc (Char.ofNat i.1) = decode_hex_dlc (Char.ofNat i.1).toUpper ∧
        decode_hex_dlc (Char.ofNat i.1) = decode_hex_dlc (Char.ofNat i.1).toLower ∧
        (Char.ofNat i.1 ∉ nibbleChars → decode_hex_dlc (Char.ofNat i.1) = .ok 64) := by
      decide
    intro c hc
    have h := key ⟨c.toNat, hc⟩
    rwa [charOfNat_toNat_ascii c hc] at h
  · intro n hn
    unfold encode_dlc_hex
    split_ifs with h1 h2 h3 h4 h5 h6 h7
    · exact absurd (by simp [canonicalFd]; omega) hn
    · exact absurd (by simp [canonicalFd, h2]) hn
    · exact absurd (by simp [canonicalFd, h3]) hn
    · exact absurd (by simp [canonicalFd, h4]) hn
    · exact absurd (by simp [canonicalFd, h5]) hn
    · exact absurd (by simp [canonicalFd, h6]) hn
    · exact absurd (by simp [canonicalFd, h7]) hn
    · rfl

/-- Witness: the amended defaults evaluated at the unrecognized ASCII
character `'z'` and the non-canonical length 9. -/
theorem dlc_codec_defaults_witness :
    decode_hex_dlc 'z' = .ok 64 ∧ encode_dlc_hex 9 = 'F' :=
  ⟨((dlc_codec_defaults.1 'z' (by decide)).2.2) (by decide),
   dlc_codec_defaults.2 9 (by decide)⟩

/-! ### Claim C2: framer determinism -/

/-- C2 (amended): for buffer contents made of ASCII bytes (`b < 128`, so the
`bytes.decode()` step succeeds — the counterexample below shows a non-UTF-8
byte makes `_read` raise an operation error instead):
(1) whenever the buffer splits as `pre ++ x :: suf` with `x` the earliest
terminator (`\r` or `\a`), `_read` returns exactly the prefix through `x`
(as its decoded string) and leaves exactly `suf` buffered; and
(2) repeatedly calling `_read` yields segments that reassemble to the buffer
with no loss and no duplication, each returned segment ends with its only
terminator, and the final leftover holds no terminator. -/
theorem framer_segmentation (buf : List Nat) (hascii : ∀ b ∈ buf, b < 128) :
    (∀ pre x suf, buf = pre ++ x :: suf → (∀ b ∈ pre, isTerm b = false) → isTerm x = true →
      _read buf = .ok (some ((pre ++ [x]).map Char.ofNat, suf))) ∧
    ((readAll buf).1.map (fun s => s.map Char.toNat)).flatten ++ (readAll buf).2 = buf ∧
    (∀ s ∈ (readAll buf).1, ∃ pre x, s.map Char.toNat = pre ++ [x] ∧ isTerm x = true ∧
      ∀ b ∈ pre, isTerm b = false) ∧
    (∀ b ∈ (readAll buf).2, isTerm b = false) := by
  refine ⟨?_, readAll_spec buf.length buf le_rfl hascii⟩
  intro pre x suf heq hpre hx
  subst heq
  refine read_split pre x suf hpre hx ?_
  intro b hb
  apply hascii
  rcases List.mem_append.mp hb with h | h
  · exact List.mem_append.mpr (Or.inl h)
  · simp at h; subst h; simp

/-- Witness: the framer applied to the bytes of `"V1\rAB\aXY"`: the two
segments and the leftover reassemble the buffer. -/
theorem framer_segmentation_witness :
    (∀ b ∈ [86, 49, 13, 65, 66, 7, 88, 89], b < 128) ∧
    ((readAll [86, 49, 13, 65, 66, 7, 88, 89]).1.map (fun s => s.map Char.toNat)).flatten ++
        (readAll [86, 49, 13, 65, 66, 7, 88, 89]).2 = [86, 49, 13, 65, 66, 7, 88, 89] ∧
    _read [86, 49, 13, 65, 66, 7, 88, 89]
      = .ok (some (['V', '1', '\r'], [65, 66, 7, 88, 89])) :=
  ⟨by decide,
   (framer_segmentation _ (by decide)).2.1,
   (framer_segmentation _ (by decide)).1 [86, 49] 13 [65, 66, 7, 88, 89] (by decide)
     (by decide) (by decide)⟩

/-- C2 counterexample: the buffer `[0xFF, 0x0D]` contains the terminator
`\r`, but `_read` raises an operation error (the sliced prefix `FF 0D` is
not UTF-8-decodable) instead of returning the prefix — so the claim as
stated fails on non-ASCII buffer contents. -/
theorem framer_segmentation_counterexample :
    (13 ∈ [255, 13] ∧ isTerm 13 = true) ∧ _read [255, 13] = .error .opError := by
  decide

/-! ### Claim C1: frame round-trip -/

/-- C1: for every well-formed message `m` (payload bytes, identifier within
its 11- or 29-bit width, remote frames classical with empty payload and
single-digit DLC, FD frames with canonical DLC equal to the payload length,
`bitrate_switch` only on FD frames, classical data frames with
`dlc = len(data) ≤ 8` — the claim's constraints completed with the data
model's field invariants), feeding the command `send` produces, with its
trailing `\r`, to `_recv_internal` reconstructs `m` exactly on
`arbitration_id`, `is_extended_id`, `is_remote_frame`, `is_fd`,
`bitrate_switch`, `dlc` and `data` (timestamp and channel are not part of
the embedded message). -/
theorem frame_round_trip (m : Msg) (h : wellFormed m) :
    _recv_internal ((sendStr m ++ ['\r']).map Char.toNat) = .ok (some m) := by
  obtain ⟨a, ext, rem, fd, brs, dlc, data⟩ := m
  obtain ⟨hdata, hid0, hrem, hfd, hbrs, hstd⟩ := h
  dsimp only at hdata hid0 hrem hfd hbrs hstd
  cases fd with
  | true =>
    cases rem with
    | true => exact absurd (hrem rfl).1 (by simp)
    | false =>
      obtain ⟨hcan, hlen⟩ := hfd rfl
      have hpad := no_fd_padding_of_canonical dlc hcan
      cases ext with
      | false =>
        norm_num at hid0
        have hid : a < 16 ^ 3 := by norm_num; omega
        cases brs with
        | false =>
          have hs : sendStr ⟨a, false, false, true, false, dlc, data⟩
              = 'd' :: (hexPad 3 a ++ ([encode_dlc_hex dlc] ++ bytesHexU data)) := by
            simp [sendStr, hpad, List.append_assoc]
          have hw : ∀ c ∈ sendStr (⟨a, false, false, true, false, dlc, data⟩ : Msg),
              48 ≤ c.toNat ∧ c.toNat ≤ 122 := by
            rw [hs]
            intro c hc
            rcases List.mem_cons.mp hc with rfl | hc
            · decide
            rcases List.mem_append.mp hc with hc | hc
            · have := hexPad_range 3 a c hc; omega
            rcases List.mem_append.mp hc with hc | hc
            · simp only [List.mem_singleton] at hc; subst hc
              have := encode_dlc_hex_range dlc; omega
            · have := bytesHexU_range data hdata c hc; omega
          rw [recv_of_wire _ hw, hs,
            show ('d' :: (hexPad 3 a ++ ([encode_dlc_hex dlc] ++ bytesHexU data))) ++ ['\r']
              = 'd' :: (hexPad 3 a ++ ([encode_dlc_hex dlc] ++ (bytesHexU data ++ ['\r'])))
              from by simp]
          exact parseFrame_d a dlc data ['\r'] hid hcan hlen.symm hdata
        | true =>
          have hs : sendStr ⟨a, false, false, true, true, dlc, data⟩
              = 'b' :: (hexPad 3 a ++ ([encode_dlc_hex dlc] ++ bytesHexU data)) := by
            simp [sendStr, hpad, List.append_assoc]
          have hw : ∀ c ∈ sendStr (⟨a, false, false, true, true, dlc, data⟩ : Msg),
              48 ≤ c.toNat ∧ c.toNat ≤ 122 := by
            rw [hs]
            intro c hc
            rcases List.mem_cons.mp hc with rfl | hc
            · decide
            rcases List.mem_append.mp hc with hc | hc
            · have := hexPad_range 3 a c hc; omega
            rcases List.mem_append.mp hc with hc | hc
            · simp only [List.mem_singleton] at hc; subst hc
              have := encode_dlc_hex_range dlc; omega
            · have := bytesHexU_range data hdata c hc; omega
          rw [recv_of_wire _ hw, hs,
            show ('b' :: (hexPad 3 a ++ ([encode_dlc_hex dlc] ++ bytesHexU data))) ++ ['\r']
              = 'b' :: (hexPad 3 a ++ ([encode_dlc_hex dlc] ++ (bytesHexU data ++ ['\r'])))
              from by simp]
          exact parseFrame_b a dlc data ['\r'] hid hcan hlen.symm hdata
      | true =>
        norm_num at hid0
        have hid : a < 16 ^ 8 := by norm_num; omega
        cases brs with
        | false =>
          have hs : sendStr ⟨a, true, false, true, false, dlc, data⟩
              = 'D' :: (hexPad 8 a ++ ([encode_dlc_hex dlc] ++ bytesHexU data)) := by
            simp [sendStr, hpad, List.append_assoc]
          have hw : ∀ c ∈ sendStr (⟨a, true, false, true, false, dlc, data⟩ : Msg),
              48 ≤ c.toNat ∧ c.toNat ≤ 122 := by
            rw [hs]
            intro c hc
            rcases List.mem_cons.mp hc with rfl | hc
            · decide
            rcases List.mem_append.mp hc with hc | hc
            · have := hexPad_range 8 a c hc; omega
            rcases List.mem_append.mp hc with hc | hc
            · simp only [List.mem_singleton] at hc; subst hc
              have := encode_dlc_hex_range dlc; omega
            · have := bytesHexU_range data hdata c hc; omega
          rw [recv_of_wire _ hw, hs,
            show ('D' :: (hexPad 8 a ++ ([encode_dlc_hex dlc] ++ bytesHexU data))) ++ ['\r']
              = 'D' :: (hexPad 8 a ++ ([encode_dlc_hex dlc] ++ (bytesHexU data ++ ['\r'])))
              from by simp]
          exact parseFrame_D a dlc data ['\r'] hid hcan hlen.symm hdata
        | true =>
          have hs : sendStr ⟨a, true, false, true, true, dlc, data⟩
              = 'B' :: (hexPad 8 a ++ ([encode_dlc_hex dlc] ++ bytesHexU data)) := by
            simp [sendStr, hpad, List.append_assoc]
          have hw : ∀ c ∈ sendStr (⟨a, true, false, true, true, dlc, data⟩ : Msg),
              48 ≤ c.toNat ∧ c.toNat ≤ 122 := by
            rw [hs]
            intro c hc
            rcases List.mem_cons.mp hc with rfl | hc
            · decide
            rcases List.mem_append.mp hc with hc | hc
            · have := hexPad_range 8 a c hc; omega
            rcases List.mem_append.mp hc with hc | hc
            · simp only [List.mem_singleton] at hc; subst hc
              have := encode_dlc_hex_range dlc; omega
            · have := bytesHexU_range data hdata c hc; omega
          rw [recv_of_wire _ hw, hs,
            show ('B' :: (hexPad 8 a ++ ([encode_dlc_hex dlc] ++ bytesHexU data))) ++ ['\r']
              = 'B' :: (hexPad 8 a ++ ([encode_dlc_hex dlc] ++ (bytesHexU data ++ ['\r'])))
              from by simp]
          exact parseFrame_B a dlc data ['\r'] hid hcan hlen.symm hdata
  | false =>
    cases brs with
    | true => exact absurd (hbrs rfl) (by simp)
    | false =>
      cases rem with
      | true =>
        obtain ⟨-, hdnil, hdlc8⟩ := hrem rfl
        subst hdnil
        cases ext with
        | false =>
          norm_num at hid0
          have hid : a < 16 ^ 3 := by norm_num; omega
          have hs : sendStr ⟨a, false, true, false, false, dlc, []⟩
              = 'r' :: (hexPad 3 a ++ [decDigitChar dlc]) := by
            simp [sendStr, natToDec_single (show dlc ≤ 9 by omega), List.append_assoc]
          have hw : ∀ c ∈ sendStr (⟨a, false, true, false, false, dlc, []⟩ : Msg),
              48 ≤ c.toNat ∧ c.toNat ≤ 122 := by
            rw [hs]
            intro c hc
            rcases List.mem_cons.mp hc with rfl | hc
            · decide
            rcases List.mem_append.mp hc with hc | hc
            · have := hexPad_range 3 a c hc; omega
            · simp only [List.mem_singleton] at hc; subst hc
              have := decDigitChar_range (show dlc ≤ 9 by omega); omega
          rw [recv_of_wire _ hw, hs,
            show ('r' :: (hexPad 3 a ++ [decDigitChar dlc])) ++ ['\r']
              = 'r' :: (hexPad 3 a ++ ([decDigitChar dlc] ++ ['\r'])) from by simp]
          exact parseFrame_r a dlc ['\r'] hid hdlc8
        | true =>
          norm_num at hid0
          have hid : a < 16 ^ 8 := by norm_num; omega
          have hs : sendStr ⟨a, true, true, false, false, dlc, []⟩
              = 'R' :: (hexPad 8 a ++ [decDigitChar dlc]) := by
            simp [sendStr, natToDec_single (show dlc ≤ 9 by omega), List.append_assoc]
          have hw : ∀ c ∈ sendStr (⟨a, true, true, false, false, dlc, []⟩ : Msg),
              48 ≤ c.toNat ∧ c.toNat ≤ 122 := by
            rw [hs]
            intro c hc
            rcases List.mem_cons.mp hc with rfl | hc
            · decide
            rcases List.mem_append.mp hc with hc | hc
            · have := hexPad_range 8 a c hc; omega
            · simp only [List.mem_singleton] at hc; subst hc
              have := decDigitChar_range (show dlc ≤ 9 by omega); omega
          rw [recv_of_wire _ hw, hs,
            show ('R' :: (hexPad 8 a ++ [decDigitChar dlc])) ++ ['\r']
              = 'R' :: (hexPad 8 a ++ ([decDigitChar dlc] ++ ['\r'])) from by simp]
          exact parseFrame_R a dlc ['\r'] hid hdlc8
      | false =>
        obtain ⟨hdlc8, hlen⟩ := hstd rfl rfl
        cases ext with
        | false =>
          norm_num at hid0
          have hid : a < 16 ^ 3 := by norm_num; omega
          have hs : sendStr ⟨a, false, false, false, false, dlc, data⟩
              = 't' :: (hexPad 3 a ++ ([decDigitChar dlc] ++ bytesHexU data)) := by
            simp [sendStr, natToDec_single (show dlc ≤ 9 by omega), List.append_assoc]
          have hw : ∀ c ∈ sendStr (⟨a, false, false, false, false, dlc, data⟩ : Msg),
              48 ≤ c.toNat ∧ c.toNat ≤ 122 := by
            rw [hs]
            intro c hc
            rcases List.mem_cons.mp hc with rfl | hc
            · decide
            rcases List.mem_append.mp hc with hc | hc
            · have := hexPad_range 3 a c hc; omega
            rcases List.mem_append.mp hc with hc | hc
            · simp only [List.mem_singleton] at hc; subst hc
              have := decDigitChar_range (show dlc ≤ 9 by omega); omega
            · have := bytesHexU_range data hdata c hc; omega
          rw [recv_of_wire _ hw, hs,
            show ('t' :: (hexPad 3 a ++ ([decDigitChar dlc] ++ bytesHexU data))) ++ ['\r']
              = 't' :: (hexPad 3 a ++ ([decDigitChar dlc] ++ (bytesHexU data ++ ['\r'])))
              from by simp]
          exact parseFrame_t a dlc data ['\r'] hid hdlc8 hlen.symm hdata
        | true =>
          norm_num at hid0
          have hid : a < 16 ^ 8 := by norm_num; omega
          have hs : sendStr ⟨a, true, false, false, false, dlc, data⟩
              = 'T' :: (hexPad 8 a ++ ([decDigitChar dlc] ++ bytesHexU data)) := by
            simp [sendStr, natToDec_single (show dlc ≤ 9 by omega), List.append_assoc]
          have hw : ∀ c ∈ sendStr (⟨a, true, false, false, false, dlc, data⟩ : Msg),
              48 ≤ c.toNat ∧ c.toNat ≤ 122 := by
            rw [hs]
            intro c hc
            rcases List.mem_cons.mp hc with rfl | hc
            · decide
            rcases List.mem_append.mp hc with hc | hc
            · have := hexPad_range 8 a c hc; omega
            rcases List.mem_append.mp hc with hc | hc
            · simp only [List.mem_singleton] at hc; subst hc
              have := decDigitChar_range (show dlc ≤ 9 by omega); omega
            · have := bytesHexU_range data hdata c hc; omega
          rw [recv_of_wire _ hw, hs,
            show ('T' :: (hexPad 8 a ++ ([decDigitChar dlc] ++ bytesHexU data))) ++ ['\r']
              = 'T' :: (hexPad 8 a ++ ([decDigitChar dlc] ++ (bytesHexU data ++ ['\r'])))
              from by simp]
          exact parseFrame_T a dlc data ['\r'] hid hdlc8 hlen.symm hdata

/-- Witness: the spec's standard-frame example
`Message(id=0x123, data=[0xDE,0xAD,0xBE,0xEF])` survives the round trip. -/
theorem frame_round_trip_witness :
    wellFormed ⟨0x123, false, false, false, false, 4, [0xDE, 0xAD, 0xBE, 0xEF]⟩ ∧
    _recv_internal
        ((sendStr ⟨0x123, false, false, false, false, 4, [0xDE, 0xAD, 0xBE, 0xEF]⟩
          ++ ['\r']).map Char.toNat)
      = .ok (some ⟨0x123, false, false, false, false, 4, [0xDE, 0xAD, 0xBE, 0xEF]⟩) :=
  ⟨by decide, frame_round_trip _ (by decide)⟩

/-! ### Claim C4: CAN-FD padding to 64 bytes -/

/-- C4 counterexample: the FD message with `dlc = 64` and an empty payload
has `encode_dlc_hex 64 = 'F'` and fewer than 64 supplied data bytes, yet
`send` emits `d000F` with an empty hex data field (no padding at all),
because the source guards the padding with `msg.dlc < 64`, not with the
data length. -/
theorem fd_padding_counterexample :
    encode_dlc_hex 64 = 'F' ∧
    (([] : List Nat).length < 64) ∧
    sendStr ⟨0, false, false, true, false, 64, []⟩ = ['d', '0', '0', '0', 'F'] ∧
    (sendStr ⟨0, false, false, true, false, 64, []⟩).length ≠ 5 + 128 := by
  decide

/-- C4 (amended): the padding is triggered by `msg.dlc < 64` together with
the `'F'` nibble, and its amount is computed from `msg.dlc`: for every FD
message with `encode_dlc_hex msg.dlc = 'F'`, `msg.dlc < 64` and
`msg.dlc = len(data)`, the emitted command ends in the payload hex followed
by `'00'` padding, and that data field holds exactly 128 hex characters
(64 on-wire bytes). -/
theorem fd_padding (m : Msg) (hfd : m.is_fd = true) (hF : encode_dlc_hex m.dlc = 'F')
    (hlt : m.dlc < 64) (hlen : m.data.length = m.dlc) :
    ∃ hd, sendStr m = hd ++ (bytesHexU m.data ++ List.replicate (2 * (64 - m.dlc)) '0') ∧
      (bytesHexU m.data ++ List.replicate (2 * (64 - m.dlc)) '0').length = 128 := by
  refine ⟨(if m.bitrate_switch then
      if m.is_extended_id then 'B' :: hexPad 8 m.arbitration_id
      else 'b' :: hexPad 3 m.arbitration_id
    else
      if m.is_extended_id then 'D' :: hexPad 8 m.arbitration_id
      else 'd' :: hexPad 3 m.arbitration_id) ++ [encode_dlc_hex m.dlc], ?_, ?_⟩
  · simp only [sendStr, hfd, if_true, if_pos (And.intro hF hlt)]
    simp [List.append_assoc]
  · rw [List.length_append, bytesHexU_length, List.length_replicate, hlen]
    omega

/-- Witness: an FD message with the non-canonical `dlc = 9` and nine data
bytes is padded out to a 128-character data field. -/
theorem fd_padding_witness :
    encode_dlc_hex 9 = 'F' ∧
    ∃ hd, sendStr ⟨0x7E0, false, false, true, false, 9, List.replicate 9 0xAB⟩
        = hd ++ (bytesHexU (List.replicate 9 0xAB) ++ List.replicate (2 * (64 - 9)) '0') ∧
      (bytesHexU (List.replicate 9 0xAB) ++ List.replicate (2 * (64 - 9)) '0').length = 128 :=
  ⟨by decide, fd_padding ⟨0x7E0, false, false, true, false, 9, List.replicate 9 0xAB⟩
    (by decide) (by decide) (by decide) (by decide)⟩

/-! ### Claim C10: malformed frame-prefixed responses raise -/

/-- C10: there exist responses whose first character is a valid frame prefix
but whose remainder is malformed, for which `_recv_internal` raises an
uncaught `ValueError` instead of returning the no-message result or an
operation error: witnessed by `tZZZ0\r`, whose identifier field `ZZZ` makes
`int(string[1:4], 16)` raise. -/
theorem recv_malformed_raises :
    "tZZZ0\r".toList.head? = some 't' ∧
    _recv_internal ("tZZZ0\r".toList.map Char.toNat) = .error .valueError := by
  decide

/-! ### Claim C5: session guard on send -/

/-- C5 counterexample: with the transport still open, immediately after
`close()` emitted `C` (the session is Closed), `send` writes the full frame
command to the transport and completes without error — refuting "writes no
bytes or raises". -/
theorem send_while_closed_counterexample :
    close ⟨true, []⟩ = .ok ⟨true, [['C', '\r']]⟩ ∧
    send ⟨0x123, false, false, false, false, 4, [0xDE, 0xAD, 0xBE, 0xEF]⟩ ⟨true, [['C', '\r']]⟩
      = .ok ⟨true, [['C', '\r'], "t1234DEADBEEF\r".toList]⟩ ∧
    ([['C', '\r'], "t1234DEADBEEF\r".toList] : List (List Char)) ≠ [['C', '\r']] := by
  decide

/-- C5 (amended): `send` performs no session-state check at all: in the
Closed state with the transport open it writes the encoded frame command
(with terminator) and completes silently; an operation error arises only
when the transport write itself fails (the port was closed by `shutdown`). -/
theorem send_no_session_guard (t : Transport) (m : Msg) (h : t.isOpen = true) :
    close t = .ok ⟨true, t.written ++ [['C', '\r']]⟩ ∧
    send m ⟨true, t.written ++ [['C', '\r']]⟩
      = .ok ⟨true, t.written ++ [['C', '\r'], sendStr m ++ ['\r']]⟩ ∧
    (∀ t' : Transport, t'.isOpen = false → send m t' = .error .opError) := by
  obtain ⟨o, w⟩ := t
  dsimp only at h
  subst h
  refine ⟨?_, ?_, ?_⟩
  · simp [close, _write, transportWrite]
  · simp [send, _write, transportWrite]
  · intro t' ht'
    obtain ⟨o', w'⟩ := t'
    dsimp only at ht'
    subst ht'
    simp [send, _write, transportWrite]

/-- Witness: the guardless send evaluated after a concrete `close()`. -/
theorem send_no_session_guard_witness :
    close ⟨true, []⟩ = .ok ⟨true, [['C', '\r']]⟩ ∧
    send ⟨0x100, false, true, false, false, 8, []⟩ ⟨true, [['C', '\r']]⟩
      = .ok ⟨true, [['C', '\r'], sendStr ⟨0x100, false, true, false, false, 8, []⟩ ++ ['\r']]⟩ :=
  ⟨(send_no_session_guard ⟨true, []⟩ ⟨0x100, false, true, false, false, 8, []⟩ rfl).1,
   (send_no_session_guard ⟨true, []⟩ ⟨0x100, false, true, false, false, 8, []⟩ rfl).2.1⟩

/-! ### Claim C6: idempotent shutdown -/

/-- C6 counterexample: after one successful `shutdown()` a second call is
not a no-op: its `close()` tries to write `C` to the already-closed
transport and raises an operation error. -/
theorem shutdown_idempotent_counterexample :
    shutdown ⟨true, []⟩ = .ok ⟨false, [['C', '\r']]⟩ ∧
    shutdown ⟨false, [['C', '\r']]⟩ = .error .opError := by
  decide

/-- C6 (amended): one `shutdown()` from an open transport emits `C` once and
closes the port; a second `shutdown()` raises an operation error when its
unconditional `close()` writes to the closed port — so `C` is successfully
written exactly once across both calls, but the second call is not safe. -/
theorem shutdown_second_raises (t : Transport) (h : t.isOpen = true) :
    shutdown t = .ok ⟨false, t.written ++ [['C', '\r']]⟩ ∧
    shutdown ⟨false, t.written ++ [['C', '\r']]⟩ = .error .opError := by
  obtain ⟨o, w⟩ := t
  dsimp only at h
  subst h
  constructor
  · simp [shutdown, close, baseShutdown, _write, transportWrite, transportClose]
  · simp [shutdown, close, baseShutdown, _write, transportWrite]

/-- Witness: the two shutdowns evaluated from a fresh open transport. -/
theorem shutdown_second_raises_witness :
    shutdown ⟨true, []⟩ = .ok ⟨false, [['C', '\r']]⟩ ∧
    shutdown ⟨false, [['C', '\r']]⟩ = .error .opError :=
  shutdown_second_raises ⟨true, []⟩ rfl

/-! ### Claim C7: construction command sequence -/

/-- C7 counterexample: constructing with `bitrate=500000` writes
`C, S6, O, O` — the open command is emitted twice (once by `set_bitrate`,
once by the constructor), not once as claimed. -/
theorem init_sequence_counterexample :
    initConfig false none (some 500000) none ⟨true, []⟩
      = .ok ⟨true, [['C', '\r'], ['S', '6', '\r'], ['O', '\r'], ['O', '\r']]⟩ ∧
    ([['C', '\r'], ['S', '6', '\r'], ['O', '\r'], ['O', '\r']] : List (List Char))
      ≠ [['C', '\r'], ['S', '6', '\r'], ['O', '\r']] := by
  decide

/-- C7 (amended): with a bitrate, BTR pair, or FD timing supplied, the
construction sequence is the close command `C`, the configuration
command(s), and then the open command (`O` normal / `L` listen-only)
twice — once issued by the setter and once more by the constructor. -/
theorem init_command_sequence (lo : Bool) (t : Transport) (h : t.isOpen = true) :
    (∀ b code, bitrateCode? b = some code →
      initConfig lo none (some b) none t
        = .ok ⟨true, t.written ++ [['C', '\r'], code ++ ['\r'],
            (if lo then ['L'] else ['O']) ++ ['\r'], (if lo then ['L'] else ['O']) ++ ['\r']]⟩) ∧
    (∀ b0 b1, initConfig lo (some (.classical b0 b1)) none none t
        = .ok ⟨true, t.written ++ [['C', '\r'], ('s' :: (hexPad 2 b0 ++ hexPad 2 b1)) ++ ['\r'],
            (if lo then ['L'] else ['O']) ++ ['\r'], (if lo then ['L'] else ['O']) ++ ['\r']]⟩) ∧
    (∀ a b c d e f g k, initConfig lo (some (.fd a b c d e f g k)) none none t
        = .ok ⟨true, t.written ++ [['C', '\r'],
            ('P' :: (decPad 4 a ++ decPad 4 b ++ decPad 4 c ++ decPad 4 d)) ++ ['\r'],
            ('p' :: (decPad 4 e ++ decPad 4 f ++ decPad 4 g ++ decPad 4 k)) ++ ['\r'],
            (if lo then ['L'] else ['O']) ++ ['\r'], (if lo then ['L'] else ['O']) ++ ['\r']]⟩) := by
  obtain ⟨o, w⟩ := t
  dsimp only at h
  subst h
  cases lo <;> refine ⟨fun b code hb => ?_, fun b0 b1 => ?_, fun a b c d e f g k => ?_⟩
  all_goals simp_all [initConfig, set_bitrate, set_bitrate_reg, _set_bit_timing_fd, close,
    openChannel, _write, transportWrite]

/-- Witness: the preset-bitrate trace evaluated at 500 kbit/s. -/
theorem init_command_sequence_witness :
    bitrateCode? 500000 = some ['S', '6'] ∧
    initConfig false none (some 500000) none ⟨true, []⟩
      = .ok ⟨true, [['C', '\r'], ['S', '6', '\r'], ['O', '\r'], ['O', '\r']]⟩ :=
  ⟨by decide,
   (init_command_sequence false ⟨true, []⟩ rfl).1 500000 ['S', '6'] (by decide)⟩

/-! ### Claim C9: version query -/

/-- C9 counterexample: the response `VXXXX\r` is exactly six characters and
starts with `V`, yet `get_version` neither returns a pair of versions nor
`(None, None)`: `int("XX")` raises an uncaught `ValueError`. -/
theorem get_version_counterexample :
    ("VXXXX\r".toList.length = 6 ∧ "VXXXX\r".toList.get? 0 = some 'V') ∧
    get_version ⟨true, []⟩ (some "VXXXX\r".toList) = .error .valueError := by
  decide

/-- C9 (amended): `get_version` writes the command `V`; on a six-character
response starting with `V` whose character ranges [1:3] and [3:5] are
decimal numerals it returns their two values; on a read timeout or any
response failing the length/prefix test it returns `(None, None)`; a
six-character `V` response with non-decimal version fields raises an
uncaught `ValueError`. -/
theorem get_version_spec (t : Transport) (h : t.isOpen = true) :
    (get_version t none = .ok (⟨true, t.written ++ [['V', '\r']]⟩, none, none)) ∧
    (∀ s hw sw, pyIntDec? (pySlice s 1 3) = some hw → pyIntDec? (pySlice s 3 5) = some sw →
      s.get? 0 = some 'V' → s.length = 6 →
      get_version t (some s) = .ok (⟨true, t.written ++ [['V', '\r']]⟩, some hw, some sw)) ∧
    (∀ s, ¬(s.get? 0 = some 'V' ∧ s.length = 6) →
      get_version t (some s) = .ok (⟨true, t.written ++ [['V', '\r']]⟩, none, none)) := by
  obtain ⟨o, w⟩ := t
  dsimp only at h
  subst h
  have hwrt : _write (⟨true, w⟩ : Transport) ['V'] = .ok ⟨true, w ++ [['V', '\r']]⟩ := by
    simp [_write, transportWrite]
  refine ⟨?_, ?_, ?_⟩
  · simp only [get_version, hwrt]
  · intro s hw sw h13 h35 hV hlen
    have hnil : ¬(s = []) := by
      intro hh
      subst hh
      simp at hV
    simp only [get_version, hwrt, if_neg hnil, if_pos (And.intro hV hlen), h13, h35]
  · intro s hns
    by_cases hnil : s = []
    · subst hnil
      simp [get_version, hwrt]
    · simp only [get_version, hwrt, if_neg hnil, if_neg hns]

/-- Witness: the spec's literal exchange — reply `V1234\r` yields
`(hw = 12, sw = 34)` with `V` written to the transport. -/
theorem get_version_spec_witness :
    get_version ⟨true, []⟩ (some "V1234\r".toList)
      = .ok (⟨true, [['V', '\r']]⟩, some 12, some 34) :=
  (get_version_spec ⟨true, []⟩ rfl).2.1 "V1234\r".toList 12 34
    (by decide) (by decide) (by decide) (by decide)

end Slcan
